import Mathlib

/-!
Shallow embedding of the `nostalgia` typed persistence layer
(`src/record.rs`, `src/storage.rs`, `src/query.rs`) over the LMDB
engine, together with proofs about the claims of its specification.

Machine integers are modelled as `Nat` with explicit bounds, byte
sequences as `List Nat` (each element `< 256`), and the LMDB engine as
an explicit environment state (named tables of sorted key/value pairs)
threaded through each operation.  Fallible calls return explicit
outcome values; a Rust `unwrap`/`expect` on a failed result is the
`panic` outcome.  Every engine call an operation issues is recorded in
an event list so that claims about which calls happen (table creation,
transactions, puts, cursor reads) can be stated.
-/

set_option linter.unreachableTactic false
set_option linter.unusedVariables false
set_option linter.unusedTactic false

namespace Nostalgia

/-- Raw byte sequences (`Vec<u8>` / `&[u8]`); each element is a byte value. -/
abbrev Bytes := List Nat

/-- Byte-lexicographic `≤` on byte sequences, as LMDB's default key
comparator orders keys (shorter prefix sorts first). -/
def lexLe : Bytes → Bytes → Bool
  | [], _ => true
  | _ :: _, [] => false
  | a :: as, b :: bs => decide (a < b) || (decide (a = b) && lexLe as bs)

/-- Byte-lexicographic strict `<` on byte sequences. -/
def lexLt : Bytes → Bytes → Bool
  | [], [] => false
  | [], _ :: _ => true
  | _ :: _, [] => false
  | a :: as, b :: bs => decide (a < b) || (decide (a = b) && lexLt as bs)

/-- The `n.to_be_bytes()` for a `w`-byte unsigned integer: big-endian,
fixed width `w` (`src/record.rs`, `Into<Vec<u8>> for Key<u32>/Key<u64>`). -/
def beBytes : Nat → Nat → Bytes
  | 0, _ => []
  | w + 1, n => (n / 256 ^ w) % 256 :: beBytes w n

/-- The `Into<Vec<u8>> for Key<u32>`: `self.0.to_be_bytes().to_vec()`. -/
def keyU32IntoBytes (n : Nat) : Bytes := beBytes 4 n

/-- The `Into<Vec<u8>> for Key<u64>`: `self.0.to_be_bytes().to_vec()`. -/
def keyU64IntoBytes (n : Nat) : Bytes := beBytes 8 n

/-- The `n.to_le_bytes()` for a `w`-byte unsigned integer: little-endian,
fixed width `w` (bincode's default fixed-int encoding). -/
def leBytes : Nat → Nat → Bytes
  | 0, _ => []
  | w + 1, n => n % 256 :: leBytes w (n / 256)

/-- Read a `w`-byte little-endian unsigned integer back from bytes. -/
def leVal : Nat → Bytes → Nat
  | 0, _ => 0
  | _ + 1, [] => 0
  | w + 1, b :: bs => b + 256 * leVal w bs

/-- Errors surfaced by the `lmdb` crate (`lmdb::Error`).  Only
`NotFound` is distinguished by this layer; every other engine error is
carried abstractly as a numeric code. -/
inductive LmdbError
  | notFound
  | other (code : Nat)
deriving DecidableEq, Repr

/-- The `StorageError` from `src/storage.rs`: unifies filesystem/setup
failures (`FileError`, from `std::io::Error`) and engine-operation
failures (`DBError`, from `lmdb::Error`). -/
inductive StorageError
  | fileError (source : Nat)
  | dbError (source : LmdbError)
deriving DecidableEq, Repr

/-- Result of running a Rust operation: normal return, `Err(_)` return,
or a panic (from `.unwrap()` / `.expect(..)` on a failed result).  On a
panic the operation's open transaction is dropped without committing,
so its buffered writes are discarded. -/
inductive Outcome (α : Type)
  | ok (a : α)
  | err (e : StorageError)
  | panic
deriving DecidableEq, Repr

/-- Engine (LMDB) calls an operation issues, recorded for claims about
which calls happen and how often. -/
inductive Event
  | createDb (name : String)
  | beginRw
  | beginRo
  | putOp (dbi : Nat) (key val : Bytes)
  | delOp (dbi : Nat) (key : Bytes)
  | cursorOpen (dbi : Nat)
  | cursorGet (dbi : Nat)
  | clearDb (dbi : Nat)
  | dropDb (dbi : Nat)
  | commit
deriving DecidableEq, Repr

/-- Count the `createDb name` calls in an event list. -/
def countCreates (name : String) : List Event → Nat
  | [] => 0
  | Event.createDb n :: evs => (if n = name then 1 else 0) + countCreates name evs
  | _ :: evs => countCreates name evs

/-- One LMDB table: key/value pairs kept sorted by the engine's
byte-lexicographic key order (keys are unique). -/
abbrev Table := List (Bytes × Bytes)

/-- The `mdb_put` with empty write flags: insert or overwrite at the key,
keeping the entries sorted by key. -/
def tablePut (t : Table) (k v : Bytes) : Table :=
  match t with
  | [] => [(k, v)]
  | (k', v') :: rest =>
    if k = k' then (k, v) :: rest
    else if lexLt k k' then (k, v) :: (k', v') :: rest
    else (k', v') :: tablePut rest k v

/-- The `mdb_get`-style lookup of the value stored at a key. -/
def tableGet (t : Table) (k : Bytes) : Option Bytes :=
  (t.find? (fun p => p.1 = k)).map (·.2)

/-- One named database inside the LMDB environment: its name, the
numeric handle (`MDB_dbi`) `create_db` handed out for it, and its
current contents. -/
structure DB where
  name : String
  dbi : Nat
  data : Table
deriving DecidableEq, Repr

/-- The LMDB environment: the named tables it holds, the next unused
database handle, and the set of table names for which the engine's
`create_db` call fails (a fault model for engine-level create errors,
e.g. the `max_dbs` ceiling). -/
structure Env where
  tables : List DB
  nextDbi : Nat
  createFail : List String
deriving DecidableEq, Repr

/-- A fresh environment with no tables. -/
def Env.empty : Env := ⟨[], 0, []⟩

/-- Contents of the table with handle `dbi`, if one exists. -/
def Env.tableByDbi (e : Env) (dbi : Nat) : Option Table :=
  (e.tables.find? (fun d => d.dbi = dbi)).map (·.data)

/-- Replace the contents of the table with handle `dbi`. -/
def Env.setTable (e : Env) (dbi : Nat) (t : Table) : Env :=
  { e with tables := e.tables.map (fun d => if d.dbi = dbi then { d with data := t } else d) }

/-- Contents of the table named `name` (`none` if the environment holds
no such table). -/
def Env.tableByName (e : Env) (name : String) : Option Table :=
  (e.tables.find? (fun d => d.name = name)).map (·.data)

/-- Value stored under `key` in the table named `name`; a missing table
reads as empty. -/
def Env.read (e : Env) (name : String) (key : Bytes) : Option Bytes :=
  match e.tableByName name with
  | none => none
  | some t => tableGet t key

/-- The `Storage` from `src/storage.rs`: the environment handle and the
table-handle cache `dbs: HashMap<&'static str, lmdb::Database>` (the
`path` field is dead code and not modelled). -/
structure Storage where
  env : Env
  dbs : List (String × Nat)
deriving DecidableEq, Repr

/-- Lookup of a cached table handle by name. -/
def Storage.cached (s : Storage) (name : String) : Option Nat :=
  (s.dbs.find? (fun p => p.1 = name)).map (·.2)

/-- The `Storage::db` (`src/storage.rs:80`): consult the handle cache; on a
miss issue `env.create_db` (create-or-open), cache the handle, and
return it.  The engine call is recorded as an event; a failing call
(`?`) returns the engine error without caching anything. -/
def Storage.db (s : Storage) (name : String) : Outcome Nat × Storage × List Event :=
  match s.cached name with
  | some dbi => (Outcome.ok dbi, s, [])
  | none =>
    if name ∈ s.env.createFail then
      (Outcome.err (StorageError.dbError (LmdbError.other 0)), s, [Event.createDb name])
    else
      match (s.env.tables.find? (fun d => d.name = name)).map (·.dbi) with
      | some dbi => (Outcome.ok dbi, { s with dbs := (name, dbi) :: s.dbs }, [Event.createDb name])
      | none =>
        let dbi := s.env.nextDbi
        let env' : Env := { s.env with tables := s.env.tables ++ [⟨name, dbi, []⟩],
                                       nextDbi := dbi + 1 }
        (Outcome.ok dbi, { env := env', dbs := (name, dbi) :: s.dbs }, [Event.createDb name])

/-- The `Record` trait (`src/record.rs`) for one record type: the key
accessor already composed with the key type's `Into<Vec<u8>>` encoding
(`record.key().into()`), the table name `db_name()`, and the
`to_binary`/`from_binary` pair.  `none` stands for the `Err(_)` case of
`bincode::Error` (its payload is never inspected by the storage layer). -/
structure RecordImpl (R : Type) where
  key : R → Bytes
  dbName : String
  toBinary : R → Option Bytes
  fromBinary : Bytes → Option R

/-- The `Storage::save` (`src/storage.rs:124`): resolve the table, begin a
read-write transaction, serialize (`.expect` panics on a serialization
error, dropping — aborting — the transaction), put, commit. -/
def Storage.save {R : Type} (impl : RecordImpl R) (s : Storage) (r : R) :
    Outcome Unit × Storage × List Event :=
  match Storage.db s impl.dbName with
  | (Outcome.ok dbi, s1, evs) =>
    let evs := evs ++ [Event.beginRw]
    match impl.toBinary r with
    | none => (Outcome.panic, s1, evs)
    | some bytes =>
      match s1.env.tableByDbi dbi with
      | some t =>
          (Outcome.ok (),
           { s1 with env := s1.env.setTable dbi (tablePut t (impl.key r) bytes) },
           evs ++ [Event.putOp dbi (impl.key r) bytes, Event.commit])
      | none =>
          (Outcome.err (StorageError.dbError (LmdbError.other 1)), s1,
           evs ++ [Event.putOp dbi (impl.key r) bytes])
  | (Outcome.err e, s1, evs) => (Outcome.err e, s1, evs)
  | (Outcome.panic, s1, evs) => (Outcome.panic, s1, evs)

/-- The `for record in records` loop of `Storage::save_batch`: serialize
each record (`.expect` panics on failure, returning `none` here) and put
it into the transaction's view of the table, in input order. -/
def saveBatchLoop {R : Type} (impl : RecordImpl R) (dbi : Nat) :
    Table → List R → Option Table × List Event
  | t, [] => (some t, [])
  | t, r :: rs =>
    match impl.toBinary r with
    | none => (none, [])
    | some bytes =>
      let res := saveBatchLoop impl dbi (tablePut t (impl.key r) bytes) rs
      (res.1, Event.putOp dbi (impl.key r) bytes :: res.2)

/-- The `Storage::save_batch` (`src/storage.rs:169`): resolve the table
once, begin one read-write transaction, put every record in input
order, commit once.  A serialization failure mid-batch panics, dropping
the uncommitted transaction, so none of the puts take effect. -/
def Storage.saveBatch {R : Type} (impl : RecordImpl R) (s : Storage) (records : List R) :
    Outcome Unit × Storage × List Event :=
  match Storage.db s impl.dbName with
  | (Outcome.ok dbi, s1, evs) =>
    let evs := evs ++ [Event.beginRw]
    match s1.env.tableByDbi dbi with
    | some t =>
      match saveBatchLoop impl dbi t records with
      | (none, puts) => (Outcome.panic, s1, evs ++ puts)
      | (some t', puts) =>
          (Outcome.ok (), { s1 with env := s1.env.setTable dbi t' },
           evs ++ puts ++ [Event.commit])
    | none => (Outcome.err (StorageError.dbError (LmdbError.other 1)), s1, evs)
  | (Outcome.err e, s1, evs) => (Outcome.err e, s1, evs)
  | (Outcome.panic, s1, evs) => (Outcome.panic, s1, evs)

/-- The `Storage::get` (`src/storage.rs:215`): resolve the table, begin a
read-only transaction, open a cursor, position it at the encoded key
(`MDB_SET`, op code 15).  A missing key makes the cursor call return
`lmdb::Error::NotFound`, which the `?` propagates as `DBError`; on a
hit the bytes are decoded, a decode failure being swallowed into
`Ok(None)`. -/
def Storage.get {R : Type} (impl : RecordImpl R) (s : Storage) (key : Bytes) :
    Outcome (Option R) × Storage × List Event :=
  match Storage.db s impl.dbName with
  | (Outcome.ok dbi, s1, evs) =>
    match s1.env.tableByDbi dbi with
    | none =>
        (Outcome.err (StorageError.dbError (LmdbError.other 1)), s1,
         evs ++ [Event.beginRo, Event.cursorOpen dbi])
    | some t =>
      let evs := evs ++ [Event.beginRo, Event.cursorOpen dbi, Event.cursorGet dbi]
      match tableGet t key with
      | none => (Outcome.err (StorageError.dbError LmdbError.notFound), s1, evs)
      | some v =>
        match impl.fromBinary v with
        | some r => (Outcome.ok (some r), s1, evs)
        | none => (Outcome.ok none, s1, evs)
  | (Outcome.err e, s1, evs) => (Outcome.err e, s1, evs)
  | (Outcome.panic, s1, evs) => (Outcome.panic, s1, evs)

/-- The `mdb_del`: remove the entry at a key. -/
def tableDel (t : Table) (k : Bytes) : Table :=
  t.filter (fun p => decide (p.1 ≠ k))

/-- The `Storage::delete` (`src/storage.rs:256`): resolve the table, begin a
read-write transaction, delete by the record's encoded key, commit.
`tx.del` on an absent key returns `lmdb::Error::NotFound`, which the
`?` propagates. -/
def Storage.delete {R : Type} (impl : RecordImpl R) (s : Storage) (r : R) :
    Outcome Unit × Storage × List Event :=
  match Storage.db s impl.dbName with
  | (Outcome.ok dbi, s1, evs) =>
    let evs := evs ++ [Event.beginRw, Event.delOp dbi (impl.key r)]
    match s1.env.tableByDbi dbi with
    | none => (Outcome.err (StorageError.dbError (LmdbError.other 1)), s1, evs)
    | some t =>
      match tableGet t (impl.key r) with
      | none => (Outcome.err (StorageError.dbError LmdbError.notFound), s1, evs)
      | some _ =>
          (Outcome.ok (), { s1 with env := s1.env.setTable dbi (tableDel t (impl.key r)) },
           evs ++ [Event.commit])
  | (Outcome.err e, s1, evs) => (Outcome.err e, s1, evs)
  | (Outcome.panic, s1, evs) => (Outcome.panic, s1, evs)

/-- The `RoQuery` (`src/query.rs`): holds the read-only transaction's
snapshot of the bound table (`txn`, `db`) and, once the first `next`
call has created the cursor, the remaining entries of the iteration
(`iter: Option<lmdb::Iter>`; `none` means the cursor has not been
created yet). -/
structure RoQuery (R : Type) where
  impl : RecordImpl R
  db : Nat
  txnView : Table
  iter : Option Table

/-- The `RoQuery::next` (`src/query.rs:25`): on the first call create the
cursor over the bound table; then advance it once (`lmdb::Iter::next`
issues one `mdb_cursor_get` call, also when the cursor is already past
the last entry) and decode the entry, a decode failure yielding `None`
for that slot. -/
def RoQuery.next {R : Type} (q : RoQuery R) : Option R × RoQuery R × List Event :=
  let opened := match q.iter with
    | none => (q.txnView, [Event.cursorOpen q.db])
    | some it => (it, ([] : List Event))
  match opened.1 with
  | [] => (none, { q with iter := some [] }, opened.2 ++ [Event.cursorGet q.db])
  | (_, v) :: rest =>
    match q.impl.fromBinary v with
    | some r => (some r, { q with iter := some rest }, opened.2 ++ [Event.cursorGet q.db])
    | none => (none, { q with iter := some rest }, opened.2 ++ [Event.cursorGet q.db])

/-- The `Storage::query` (`src/storage.rs:291`): resolve the table, begin a
read-only transaction, and hand back the lazy iterator with no cursor
created yet. -/
def Storage.query {R : Type} (impl : RecordImpl R) (s : Storage) :
    Outcome (RoQuery R) × Storage × List Event :=
  match Storage.db s impl.dbName with
  | (Outcome.ok dbi, s1, evs) =>
      (Outcome.ok { impl := impl, db := dbi, txnView := (s1.env.tableByDbi dbi).getD [],
                    iter := none },
       s1, evs ++ [Event.beginRo])
  | (Outcome.err e, s1, evs) => (Outcome.err e, s1, evs)
  | (Outcome.panic, s1, evs) => (Outcome.panic, s1, evs)

/-- The `Iterator::find` as `Storage::find` uses it: call `next` until it
yields an item satisfying the predicate (success) or yields no item —
exhaustion or a decode failure — which stops the scan.  The fuel
argument only bounds the recursion; `Storage.find` supplies more fuel
than the finite iterator can consume. -/
def RoQuery.findLoop {R : Type} (p : R → Bool) (q : RoQuery R) :
    Nat → Option R × RoQuery R × List Event
  | 0 => (none, q, [])
  | fuel + 1 =>
    match RoQuery.next q with
    | (none, q', evs) => (none, q', evs)
    | (some r, q', evs) =>
      if p r then (some r, q', evs)
      else
        let res := RoQuery.findLoop p q' fuel
        (res.1, res.2.1, evs ++ res.2.2)

/-- The `Storage::find` (`src/storage.rs:331`): run `query`, then scan the
iterator linearly with the predicate. -/
def Storage.find {R : Type} (impl : RecordImpl R) (s : Storage) (p : R → Bool) :
    Outcome (Option R) × Storage × List Event :=
  match Storage.query impl s with
  | (Outcome.ok q, s1, evs) =>
      let res := RoQuery.findLoop p q (q.txnView.length + 2)
      (Outcome.ok res.1, s1, evs ++ res.2.2)
  | (Outcome.err e, s1, evs) => (Outcome.err e, s1, evs)
  | (Outcome.panic, s1, evs) => (Outcome.panic, s1, evs)

/-- The `Storage::truncate` (`src/storage.rs:337`): resolve the table,
begin a read-write transaction, `clear_db`, commit.  The handle stays
cached. -/
def Storage.truncate {R : Type} (impl : RecordImpl R) (s : Storage) :
    Outcome Unit × Storage × List Event :=
  match Storage.db s impl.dbName with
  | (Outcome.ok dbi, s1, evs) =>
    let evs := evs ++ [Event.beginRw, Event.clearDb dbi]
    match s1.env.tableByDbi dbi with
    | none => (Outcome.err (StorageError.dbError (LmdbError.other 1)), s1, evs)
    | some _ =>
        (Outcome.ok (), { s1 with env := s1.env.setTable dbi [] }, evs ++ [Event.commit])
  | (Outcome.err e, s1, evs) => (Outcome.err e, s1, evs)
  | (Outcome.panic, s1, evs) => (Outcome.panic, s1, evs)

/-- The `Storage::drop` (`src/storage.rs:346`): resolve the table (creating
it first if it was never referenced), begin a read-write transaction,
`drop_db` (delete the table itself), commit, then evict the handle from
the cache. -/
def Storage.drop {R : Type} (impl : RecordImpl R) (s : Storage) :
    Outcome Unit × Storage × List Event :=
  match Storage.db s impl.dbName with
  | (Outcome.ok dbi, s1, evs) =>
    let evs := evs ++ [Event.beginRw, Event.dropDb dbi]
    match s1.env.tableByDbi dbi with
    | none => (Outcome.err (StorageError.dbError (LmdbError.other 1)), s1, evs)
    | some _ =>
        let env' : Env := { s1.env with tables := s1.env.tables.filter (fun d => decide (d.dbi ≠ dbi)) }
        (Outcome.ok (),
         { env := env', dbs := s1.dbs.filter (fun pr => decide (pr.1 ≠ impl.dbName)) },
         evs ++ [Event.commit])
  | (Outcome.err e, s1, evs) => (Outcome.err e, s1, evs)
  | (Outcome.panic, s1, evs) => (Outcome.panic, s1, evs)

/-- The filesystem/engine circumstances `Storage::new` runs under:
whether `create_dir_all` fails (with which `io::Error`, as a code) and
whether `lmdb::EnvironmentBuilder::open` fails. -/
structure World where
  createDirFail : Option Nat
  envOpenFail : Option LmdbError
deriving DecidableEq, Repr

/-- The `Storage::new` (`src/storage.rs:64`): configure the environment
builder (`max_dbs`, `map_size` — capacity ceilings enforced by the
engine, not modelled further), `create_dir_all(p)?` (an `io::Error`
becomes `FileError` via `?`), then `builder.open(p).unwrap()` — an
engine failure to open the environment panics instead of returning an
error. -/
def Storage.new (w : World) : Outcome Storage :=
  match w.createDirFail with
  | some code => Outcome.err (StorageError.fileError code)
  | none =>
    match w.envOpenFail with
    | some _ => Outcome.panic
    | none => Outcome.ok { env := Env.empty, dbs := [] }

/-- The representative record type the repository's tests persist:
`struct Person { id: u32, name: String }` (`src/storage.rs`, tests).
`id` holds a `u32` value (`< 2^32` where it matters); `name` holds the
string's UTF-8 bytes. -/
structure Person where
  id : Nat
  name : List Nat
deriving DecidableEq, Repr

/-- The `bincode::serialize` (default configuration) for a `(u32, String)`
struct: the `u32` as 4 fixed little-endian bytes, then the string as a
`u64` little-endian byte length followed by the UTF-8 bytes. -/
def Person.toBinary (p : Person) : Bytes :=
  leBytes 4 p.id ++ (leBytes 8 p.name.length ++ p.name)

/-- The `bincode::deserialize` for the same struct: read the `u32`, the
`u64` length, then that many content bytes, failing (`none`) when the
input is too short. -/
def Person.fromBinary (bs : Bytes) : Option Person :=
  if 12 ≤ bs.length then
    let len := leVal 8 ((bs.drop 4).take 8)
    let rest := bs.drop 12
    if len ≤ rest.length then
      some { id := leVal 4 (bs.take 4), name := rest.take len }
    else none
  else none

/-- The `Record` implementation for `Person` from the tests in
`src/storage.rs`: key `Key::from(self.id)` encoded via
`Into<Vec<u8>> for Key<u32>`, table name `"Person"`, bincode
serialization (which never fails on this struct). -/
def personImpl : RecordImpl Person :=
  { key := fun p => keyU32IntoBytes p.id
    dbName := "Person"
    toBinary := fun p => some (Person.toBinary p)
    fromBinary := Person.fromBinary }

/-- A `Person`-shaped implementation whose decoder is broken on
purpose, for exercising the decode-failure paths. -/
def badDecodeImpl : RecordImpl Person :=
  { personImpl with fromBinary := fun _ => none }

/-- A `Person`-shaped implementation whose encoder fails on records
with id `0`, for exercising the serialization-failure paths. -/
def badEncodeImpl : RecordImpl Person :=
  { personImpl with toBinary := fun p => if p.id = 0 then none else some (Person.toBinary p) }

/-- One public `Storage` call, for stating cache invariants over call
sequences.  Each call carries the `Record` implementation it is invoked
at, so one trace can mix implementations with different table names and
key schemes. -/
inductive TraceOp (R : Type)
  | save (impl : RecordImpl R) (r : R)
  | saveBatch (impl : RecordImpl R) (rs : List R)
  | get (impl : RecordImpl R) (k : Bytes)
  | delete (impl : RecordImpl R) (r : R)
  | query (impl : RecordImpl R)
  | find (impl : RecordImpl R) (p : R → Bool)
  | truncate (impl : RecordImpl R)
  | dropTable (impl : RecordImpl R)

/-- The state change and engine calls of one public call (its returned
value is dropped; a returned query iterator is dropped too, releasing
its read transaction without further engine calls). -/
def TraceOp.step {R : Type} : TraceOp R → Storage → Storage × List Event
  | TraceOp.save impl r, s => (Storage.save impl s r).2
  | TraceOp.saveBatch impl rs, s => (Storage.saveBatch impl s rs).2
  | TraceOp.get impl k, s => (Storage.get impl s k).2
  | TraceOp.delete impl r, s => (Storage.delete impl s r).2
  | TraceOp.query impl, s => (Storage.query impl s).2
  | TraceOp.find impl p, s => (Storage.find impl s p).2
  | TraceOp.truncate impl, s => (Storage.truncate impl s).2
  | TraceOp.dropTable impl, s => (Storage.drop impl s).2

/-- Whether a call is the explicit drop-table operation on the given
table name. -/
def TraceOp.isDropOf {R : Type} (op : TraceOp R) (name : String) : Bool :=
  match op with
  | TraceOp.dropTable impl => impl.dbName = name
  | _ => false

/-- Run a sequence of public calls from a state, collecting every
engine call issued along the way. -/
def runTrace {R : Type} : List (TraceOp R) → Storage → Storage × List Event
  | [], s => (s, [])
  | op :: ops, s =>
    let res := op.step s
    let rest := runTrace ops res.1
    (rest.1, res.2 ++ rest.2)

/-- Exhaustively drive an iterator the way a Rust `for` loop does: call
`next` until it yields no item, collecting the items.  `fuel` bounds
the recursion; the iterator is finite, so any fuel beyond the table
size changes nothing. -/
def RoQuery.loopAll {R : Type} : Nat → RoQuery R → List R × RoQuery R
  | 0, q => ([], q)
  | fuel + 1, q =>
    match RoQuery.next q with
    | (some r, q', _) =>
      let rest := RoQuery.loopAll fuel q'
      (r :: rest.1, rest.2)
    | (none, q', _) => ([], q')

/-- The table contents after the `save_batch` loop: each record's
encoded bytes put at its key, in input order. -/
def batchPut {R : Type} (impl : RecordImpl R) : Table → List R → Table
  | t, [] => t
  | t, r :: rs => batchPut impl (tablePut t (impl.key r) ((impl.toBinary r).getD [])) rs

/-- A storage state holding one empty `"Person"` table with its handle
cached, as after a fresh `truncate::<Person>()`. -/
def personStorage0 : Storage :=
  { env := { tables := [⟨"Person", 0, []⟩], nextDbi := 1, createFail := [] },
    dbs := [("Person", 0)] }

/-- A `"Person"` table holding one well-formed record under key 1 and
one undecodable byte string under key 2. -/
def personTable1 : Table :=
  [(keyU32IntoBytes 1, Person.toBinary ⟨1, [86]⟩), (keyU32IntoBytes 2, [7])]

/-- A storage state whose `"Person"` table is `personTable1`. -/
def personStorage1 : Storage :=
  { env := { tables := [⟨"Person", 0, personTable1⟩], nextDbi := 1, createFail := [] },
    dbs := [("Person", 0)] }

/-- The storage state after `Storage::db` resolves a never-referenced
name: the environment gains an empty table under the next handle and
the cache gains the pair. -/
def dbMissState (s : Storage) (name : String) : Storage :=
  let env' : Env := { s.env with tables := s.env.tables ++ [⟨name, s.env.nextDbi, []⟩],
                                 nextDbi := s.env.nextDbi + 1 }
  { env := env', dbs := (name, s.env.nextDbi) :: s.dbs }

/-- A `"Person"` table holding two well-formed records. -/
def personTable2 : Table :=
  [(keyU32IntoBytes 1, Person.toBinary ⟨1, [86]⟩), (keyU32IntoBytes 2, Person.toBinary ⟨2, [80]⟩)]

/-- A storage state whose `"Person"` table is `personTable2`. -/
def personStorage2 : Storage :=
  { env := { tables := [⟨"Person", 0, personTable2⟩], nextDbi := 1, createFail := [] },
    dbs := [("Person", 0)] }

/-- An iterator over an empty snapshot whose cursor is exhausted. -/
def qExhausted : RoQuery Person :=
  { impl := personImpl, db := 0, txnView := [], iter := some [] }

/-- A concrete three-call sequence (a read, a write, a query) on the
`"Person"` record type. -/
def c6trace : List (TraceOp Person) :=
  [TraceOp.get personImpl (keyU32IntoBytes 1),
   TraceOp.save personImpl ⟨1, [80]⟩,
   TraceOp.query personImpl]

/-- Event lists that contain no `create_db` call. -/
def createFree : List Event → Bool
  | [] => true
  | Event.createDb _ :: _ => false
  | _ :: evs => createFree evs

/-- The table name a public call resolves through the handle cache. -/
def TraceOp.tableName {R : Type} : TraceOp R → String
  | TraceOp.save impl _ => impl.dbName
  | TraceOp.saveBatch impl _ => impl.dbName
  | TraceOp.get impl _ => impl.dbName
  | TraceOp.delete impl _ => impl.dbName
  | TraceOp.query impl => impl.dbName
  | TraceOp.find impl _ => impl.dbName
  | TraceOp.truncate impl => impl.dbName
  | TraceOp.dropTable impl => impl.dbName

/-! Theorems about the embedded operations, and the claim theorems. -/

theorem beBytes_length (w n : Nat) : (beBytes w n).length = w := by
  induction w generalizing n with
  | zero => rfl
  | succ w ih => simp [beBytes, ih]

theorem leBytes_length (w n : Nat) : (leBytes w n).length = w := by
  induction w generalizing n with
  | zero => rfl
  | succ w ih => simp [leBytes, ih]

/-- Reading back a little-endian encoding recovers the value, for values
that fit in the width. -/
theorem leVal_leBytes (w n : Nat) (h : n < 256 ^ w) : leVal w (leBytes w n) = n := by
  induction w generalizing n with
  | zero =>
      simp [pow_zero, Nat.lt_one_iff] at h
      simp [leBytes, leVal, h]
  | succ w ih =>
      have hdiv : n / 256 < 256 ^ w := by
        rw [Nat.div_lt_iff_lt_mul (by norm_num : 0 < 256)]
        calc n < 256 ^ (w + 1) := h
        _ = 256 ^ w * 256 := by ring
      simp [leBytes, leVal, ih (n / 256) hdiv]
      omega

/-- Truncating the value to the width does not change its fixed-width
big-endian encoding. -/
theorem beBytes_mod (w n : Nat) : beBytes w (n % 256 ^ w) = beBytes w n := by
  induction w generalizing n with
  | zero => rfl
  | succ w ih =>
      have h1 : n % 256 ^ (w + 1) / 256 ^ w = n / 256 ^ w % 256 := by
        rw [pow_succ]
        exact Nat.mod_mul_right_div_self n (256 ^ w) 256
      have h2 : n % 256 ^ (w + 1) % 256 ^ w = n % 256 ^ w :=
        Nat.mod_mod_of_dvd n ⟨256, by ring⟩
      calc beBytes (w + 1) (n % 256 ^ (w + 1))
          = n % 256 ^ (w + 1) / 256 ^ w % 256 :: beBytes w (n % 256 ^ (w + 1)) := rfl
        _ = n / 256 ^ w % 256 % 256 :: beBytes w (n % 256 ^ (w + 1) % 256 ^ w) := by
              rw [h1, ih]
        _ = n / 256 ^ w % 256 :: beBytes w (n % 256 ^ w) := by
              rw [Nat.mod_mod_of_dvd (n / 256 ^ w) (dvd_refl 256), h2]
        _ = n / 256 ^ w % 256 :: beBytes w n := by rw [ih]
        _ = beBytes (w + 1) n := rfl

/-- Big-endian fixed-width encoding is order-preserving: on values that
fit the width, numeric `≤` coincides with byte-lexicographic `≤`. -/
theorem lexLe_beBytes (w a b : Nat) (ha : a < 256 ^ w) (hb : b < 256 ^ w) :
    lexLe (beBytes w a) (beBytes w b) = true ↔ a ≤ b := by
  induction w generalizing a b with
  | zero =>
      simp [pow_zero, Nat.lt_one_iff] at ha hb
      subst ha; subst hb
      simp [beBytes, lexLe]
  | succ w ih =>
      have hp : 0 < (256 : Nat) ^ w := Nat.pos_pow_of_pos w (by norm_num)
      have ha' : a % 256 ^ w < 256 ^ w := Nat.mod_lt _ hp
      have hb' : b % 256 ^ w < 256 ^ w := Nat.mod_lt _ hp
      have hdec : a = 256 ^ w * (a / 256 ^ w) + a % 256 ^ w := (Nat.div_add_mod a (256 ^ w)).symm
      have hdecb : b = 256 ^ w * (b / 256 ^ w) + b % 256 ^ w := (Nat.div_add_mod b (256 ^ w)).symm
      have hda : a / 256 ^ w < 256 := by
        rw [Nat.div_lt_iff_lt_mul hp]
        calc a < 256 ^ (w + 1) := ha
        _ = 256 * 256 ^ w := by ring
      have hdb : b / 256 ^ w < 256 := by
        rw [Nat.div_lt_iff_lt_mul hp]
        calc b < 256 ^ (w + 1) := hb
        _ = 256 * 256 ^ w := by ring
      constructor
      · intro h
        simp only [beBytes, lexLe, Bool.or_eq_true, Bool.and_eq_true, decide_eq_true_eq] at h
        rcases h with h | ⟨heq, hrest⟩
        · rw [Nat.mod_eq_of_lt hda, Nat.mod_eq_of_lt hdb] at h
          have hlt : a < b := by
            calc a < 256 ^ w * (a / 256 ^ w) + 256 ^ w := by omega
            _ = 256 ^ w * (a / 256 ^ w + 1) := by ring
            _ ≤ 256 ^ w * (b / 256 ^ w) := Nat.mul_le_mul_left _ (by omega)
            _ ≤ b := by omega
          exact le_of_lt hlt
        · rw [Nat.mod_eq_of_lt hda, Nat.mod_eq_of_lt hdb] at heq
          rw [← beBytes_mod w a, ← beBytes_mod w b] at hrest
          have hle := (ih (a % 256 ^ w) (b % 256 ^ w) ha' hb').1 hrest
          rw [heq] at hdec
          omega
      · intro h
        simp only [beBytes, lexLe, Bool.or_eq_true, Bool.and_eq_true, decide_eq_true_eq]
        rw [Nat.mod_eq_of_lt hda, Nat.mod_eq_of_lt hdb]
        by_cases hq : a / 256 ^ w < b / 256 ^ w
        · exact Or.inl hq
        · have hqe : a / 256 ^ w = b / 256 ^ w := by
            have hle : a / 256 ^ w ≤ b / 256 ^ w := Nat.div_le_div_right h
            omega
          refine Or.inr ⟨hqe, ?_⟩
          rw [← beBytes_mod w a, ← beBytes_mod w b]
          apply (ih (a % 256 ^ w) (b % 256 ^ w) ha' hb').2
          rw [hqe] at hdec
          omega

theorem countCreates_append (name : String) (l₁ l₂ : List Event) :
    countCreates name (l₁ ++ l₂) = countCreates name l₁ + countCreates name l₂ := by
  induction l₁ with
  | nil => simp [countCreates]
  | cons e l ih => cases e <;> simp [countCreates, ih, Nat.add_assoc]

theorem countCreates_eq_zero_of_createFree {n : String} {evs : List Event}
    (h : createFree evs = true) : countCreates n evs = 0 := by
  induction evs with
  | nil => rfl
  | cons e evs ih =>
      cases e <;> simp [createFree] at h <;> simp [countCreates, ih h]

theorem createFree_append {l₁ l₂ : List Event} (h₁ : createFree l₁ = true)
    (h₂ : createFree l₂ = true) : createFree (l₁ ++ l₂) = true := by
  induction l₁ with
  | nil => simpa using h₂
  | cons e l ih =>
      cases e <;> simp [createFree] at h₁ ⊢ <;> exact ih h₁

theorem next_events_createFree {R : Type} (q : RoQuery R) :
    createFree (RoQuery.next q).2.2 = true := by
  unfold RoQuery.next
  rcases q with ⟨impl, db, view, iter⟩
  rcases iter with _ | it
  · rcases view with _ | ⟨⟨k, v⟩, rest⟩
    · simp [createFree]
    · rcases h : impl.fromBinary v <;> simp [h, createFree]
  · rcases it with _ | ⟨⟨k, v⟩, rest⟩
    · simp [createFree]
    · rcases h : impl.fromBinary v <;> simp [h, createFree]

theorem findLoop_events_createFree {R : Type} (p : R → Bool) :
    ∀ (fuel : Nat) (q : RoQuery R), createFree (RoQuery.findLoop p q fuel).2.2 = true := by
  intro fuel
  induction fuel with
  | zero => intro q; rfl
  | succ fuel ih =>
      intro q
      unfold RoQuery.findLoop
      rcases hn : RoQuery.next q with ⟨o, q', evs⟩
      have hev : createFree evs = true := by
        have := next_events_createFree q
        rw [hn] at this
        exact this
      rcases o with _ | r
      · simpa using hev
      · by_cases hp : p r = true
        · simp [hp, hev]
        · simp only [Bool.not_eq_true] at hp
          simp [hp]
          exact createFree_append hev (ih q')

theorem tableGet_tablePut_self (t : Table) (k v : Bytes) :
    tableGet (tablePut t k v) k = some v := by
  induction t with
  | nil =>
      unfold tablePut tableGet
      rw [List.find?_cons_of_pos _ (by simp)]
      rfl
  | cons p t ih =>
      rcases p with ⟨pk, pv⟩
      by_cases hk : k = pk
      · rw [show tablePut ((pk, pv) :: t) k v = (k, v) :: t from by simp [tablePut, hk]]
        unfold tableGet
        rw [List.find?_cons_of_pos _ (by simp)]
        rfl
      · rcases hlt : lexLt k pk with _ | _
        · rw [show tablePut ((pk, pv) :: t) k v = (pk, pv) :: tablePut t k v from by
            simp [tablePut, hk, hlt]]
          unfold tableGet
          rw [List.find?_cons_of_neg _ (by simp [Ne.symm hk])]
          exact ih
        · rw [show tablePut ((pk, pv) :: t) k v = (k, v) :: (pk, pv) :: t from by
            simp [tablePut, hk, hlt]]
          unfold tableGet
          rw [List.find?_cons_of_pos _ (by simp)]
          rfl

/-- Looking up a different key is unaffected by a put. -/
theorem tableGet_tablePut_other (t : Table) (k k' v : Bytes) (h : k' ≠ k) :
    tableGet (tablePut t k v) k' = tableGet t k' := by
  have hk' : decide (k = k') = false := by simp; exact Ne.symm h
  induction t with
  | nil =>
      unfold tablePut tableGet
      rw [List.find?_cons_of_neg _ (by simp [Ne.symm h])]
  | cons p t ih =>
      rcases p with ⟨pk, pv⟩
      by_cases hk : k = pk
      · subst hk
        rw [show tablePut ((k, pv) :: t) k v = (k, v) :: t from by simp [tablePut]]
        unfold tableGet
        rw [List.find?_cons_of_neg _ (by simp [Ne.symm h]),
          List.find?_cons_of_neg _ (by simp [Ne.symm h])]
      · rcases hlt : lexLt k pk with _ | _
        · rw [show tablePut ((pk, pv) :: t) k v = (pk, pv) :: tablePut t k v from by
            simp [tablePut, hk, hlt]]
          by_cases hp : pk = k'
          · unfold tableGet
            rw [List.find?_cons_of_pos _ (by simp [hp]), List.find?_cons_of_pos _ (by simp [hp])]
          · unfold tableGet at ih ⊢
            rw [List.find?_cons_of_neg _ (by simp [hp]), List.find?_cons_of_neg _ (by simp [hp])]
            exact ih
        · rw [show tablePut ((pk, pv) :: t) k v = (k, v) :: (pk, pv) :: t from by
            simp [tablePut, hk, hlt]]
          unfold tableGet
          rw [List.find?_cons_of_neg _ (by simp [Ne.symm h])]

/-- Updating the entry for a handle in a table list and then searching
for that handle finds the updated contents. -/
theorem find_dbi_map_set (ts : List DB) (dbi : Nat) (t : Table)
    (h : (ts.find? (fun d => d.dbi = dbi)).isSome) :
    ((ts.map (fun d => if d.dbi = dbi then { d with data := t } else d)).find?
      (fun d => d.dbi = dbi)).map (·.data) = some t := by
  induction ts with
  | nil => simp at h
  | cons d ds ih =>
      by_cases hd : d.dbi = dbi
      · rw [List.map_cons, if_pos hd]
        rw [List.find?_cons_of_pos _ (by simp [hd])]
        rfl
      · rw [List.find?_cons_of_neg ds (by simp [hd])] at h
        rw [List.map_cons, if_neg hd]
        rw [List.find?_cons_of_neg _ (by simp [hd])]
        exact ih h

/-- Replacing a table's contents through its handle makes later reads
through the same handle see the new contents. -/
theorem tableByDbi_setTable (e : Env) (dbi : Nat) (t t0 : Table)
    (h : e.tableByDbi dbi = some t0) :
    (e.setTable dbi t).tableByDbi dbi = some t := by
  unfold Env.tableByDbi at h
  have hs : (e.tables.find? (fun d => d.dbi = dbi)).isSome := by
    rcases hf : e.tables.find? (fun d => d.dbi = dbi) with _ | d
    · rw [hf] at h; simp at h
    · rw [hf]; rfl
  unfold Env.setTable Env.tableByDbi
  simpa using find_dbi_map_set e.tables dbi t hs

/-- After dropping a name from the cache list, lookups for it fail. -/
theorem cached_filter_self (dbs : List (String × Nat)) (name : String) :
    (dbs.filter (fun pr => decide (pr.1 ≠ name))).find? (fun p => decide (p.1 = name)) = none := by
  rw [List.find?_eq_none]
  intro x hx
  have hmem := (List.mem_filter.1 hx).2
  simp only [decide_eq_true_eq] at hmem
  simp [hmem]

/-- The `Storage::db` on a cached name is a pure cache hit: the cached
handle is returned, the state is untouched and no engine call is made. -/
theorem db_cached_hit {s : Storage} {name : String} {dbi : Nat}
    (h : s.cached name = some dbi) : Storage.db s name = (Outcome.ok dbi, s, []) := by
  unfold Storage.db
  rw [h]

/-- Appending an empty table to an environment changes no `Env.read`
result (a missing table already reads as empty). -/
theorem env_read_append_empty (e : Env) (extra : DB) (hd : extra.data = [])
    (nd : Nat) (cf : List String) (n : String) (k : Bytes) :
    Env.read ⟨e.tables ++ [extra], nd, cf⟩ n k = e.read n k := by
  unfold Env.read Env.tableByName
  simp only [List.find?_append]
  rcases hn : e.tables.find? (fun d => d.name = n) with _ | d
  · by_cases he : extra.name = n
    · simp [hn, List.find?, he, tableGet, hd]
    · simp [hn, List.find?, he]
  · simp [hn]

/-- The `Storage::db` changes neither the engine fault model nor the tables'
contents as read through `Env.read`. -/
theorem db_env_read {s : Storage} {name : String} (n : String) (k : Bytes) :
    ((Storage.db s name).2.1).env.read n k = s.env.read n k := by
  unfold Storage.db
  rcases hc : s.cached name with _ | dbi
  · by_cases hf : name ∈ s.env.createFail
    · simp [hf]
    · simp only [hf, if_neg, if_false]
      rcases hfind : (s.env.tables.find? (fun d => d.name = name)).map (·.dbi) with _ | dbi
      · simp only [hfind]
        exact env_read_append_empty s.env ⟨name, s.env.nextDbi, []⟩ rfl _ _ n k
      · simp [hfind]
  · simp

theorem db_createFail {s : Storage} {name : String} :
    ((Storage.db s name).2.1).env.createFail = s.env.createFail := by
  unfold Storage.db
  rcases hc : s.cached name with _ | dbi
  · by_cases hf : name ∈ s.env.createFail
    · simp [hf]
    · simp only [hf]
      rcases hfind : (s.env.tables.find? (fun d => d.name = name)).map (·.dbi) with _ | dbi
      · simp [hfind]
      · simp [hfind]
  · simp

/-- The `Storage::db` leaves the cache alone or conses the resolved name
onto it. -/
theorem db_dbs {s : Storage} {name : String} :
    ((Storage.db s name).2.1).dbs = s.dbs ∨
    ∃ dbi, ((Storage.db s name).2.1).dbs = (name, dbi) :: s.dbs := by
  unfold Storage.db
  rcases hc : s.cached name with _ | dbi
  · by_cases hf : name ∈ s.env.createFail
    · simp [hf]
    · simp only [hf]
      rcases hfind : (s.env.tables.find? (fun d => d.name = name)).map (·.dbi) with _ | dbi
      · simp [hfind]
      · simp [hfind]
  · simp

/-- The engine calls of `Storage::db`: none on a cache hit, exactly the
`create_db` call on a miss. -/
theorem db_events {s : Storage} {name : String} :
    (Storage.db s name).2.2 = (if (s.cached name).isSome then [] else [Event.createDb name]) := by
  unfold Storage.db
  rcases hc : s.cached name with _ | dbi
  · by_cases hf : name ∈ s.env.createFail
    · simp [hf]
    · simp only [hf]
      rcases hfind : (s.env.tables.find? (fun d => d.name = name)).map (·.dbi) with _ | dbi
      · simp [hfind]
      · simp [hfind]
  · simp

/-- A successful `Storage::db` leaves the resolved handle in the cache. -/
theorem db_ok_cached {s : Storage} {name : String} {dbi : Nat} {s' : Storage} {evs : List Event}
    (h : Storage.db s name = (Outcome.ok dbi, s', evs)) : s'.cached name = some dbi := by
  unfold Storage.db at h
  rcases hc : s.cached name with _ | d
  · rw [hc] at h
    by_cases hf : name ∈ s.env.createFail
    · simp [hf] at h
    · simp only [hf, if_neg, if_false] at h
      rcases hfind : (s.env.tables.find? (fun d => d.name = name)).map (·.dbi) with _ | d
      · rw [hfind] at h
        simp only [Prod.mk.injEq] at h
        rcases h with ⟨h1, h2, h3⟩
        cases h1
        rw [← h2]
        simp [Storage.cached]
      · rw [hfind] at h
        simp only [Prod.mk.injEq] at h
        rcases h with ⟨h1, h2, h3⟩
        cases h1
        rw [← h2]
        simp [Storage.cached]
  · rw [hc] at h
    simp only [Prod.mk.injEq] at h
    rcases h with ⟨h1, h2, h3⟩
    cases h1
    rw [← h2]
    exact hc

/-- The `Storage::db` on an uncached name whose `create_db` call succeeds
caches the handle. -/
theorem db_miss_caches {s : Storage} {name : String}
    (hc : s.cached name = none) (hf : name ∉ s.env.createFail) :
    ∃ dbi, Storage.db s name =
      (Outcome.ok dbi, (Storage.db s name).2.1, [Event.createDb name]) ∧
      ((Storage.db s name).2.1).cached name = some dbi := by
  unfold Storage.db
  rw [hc]
  simp only [hf, if_false]
  rcases hfind : (s.env.tables.find? (fun d => d.name = name)).map (·.dbi) with _ | dbi
  · exact ⟨s.env.nextDbi, by simp [hfind], by simp [hfind, Storage.cached]⟩
  · exact ⟨dbi, by simp [hfind], by simp [hfind, Storage.cached]⟩

/-- Cache entries for other names survive `Storage::db`. -/
theorem db_cached_other {s : Storage} {name n : String} (hne : n ≠ name) :
    ((Storage.db s name).2.1).cached n = s.cached n := by
  rcases @db_dbs s name with h | ⟨dbi, h⟩
  · simp [Storage.cached, h]
  · have hne' : name ≠ n := Ne.symm hne
    simp [Storage.cached, h, List.find?, hne']

/-- Filtering another name's entries out of the cache list does not
change what a lookup finds. -/
theorem find_filter_other {dbs : List (String × Nat)} {m n : String} (h : m ≠ n) :
    (dbs.filter (fun pr => decide (pr.1 ≠ m))).find? (fun p => decide (p.1 = n)) =
      dbs.find? (fun p => decide (p.1 = n)) := by
  induction dbs with
  | nil => rfl
  | cons a dbs ih =>
      by_cases ha : a.1 = m
      · rw [List.filter_cons_of_neg (by simp [ha])]
        rw [List.find?_cons_of_neg dbs (by simp [ha, h])]
        exact ih
      · rw [List.filter_cons_of_pos (by simp [ha])]
        by_cases han : a.1 = n
        · rw [List.find?_cons_of_pos _ (by simp [han]), List.find?_cons_of_pos dbs (by simp [han])]
        · rw [List.find?_cons_of_neg _ (by simp [han]), List.find?_cons_of_neg dbs (by simp [han])]
          exact ih

/-- The engine calls of the `for` loop of `save_batch` are put calls
only, never a `create_db`. -/
theorem saveBatchLoop_events_createFree {R : Type} (impl : RecordImpl R) (dbi : Nat) :
    ∀ (rs : List R) (t : Table), createFree (saveBatchLoop impl dbi t rs).2 = true := by
  intro rs
  induction rs with
  | nil => intro t; rfl
  | cons r rs ih =>
      intro t
      unfold saveBatchLoop
      rcases hb : impl.toBinary r with _ | bytes
      · simp [createFree]
      · simp only []
        simpa [createFree] using ih (tablePut t (impl.key r) bytes)

/-- Every public call is: the table resolution of `Storage::db`, then
further engine calls that never include a `create_db`, and state
changes that (apart from the drop-table call on that very name) touch
neither the cache entry for a name nor the engine fault model. -/
theorem step_shape {R : Type} (op : TraceOp R) (s : Storage) (n : String)
    (hd : op.isDropOf n = false) :
    ∃ extra : List Event,
      createFree extra = true ∧
      (op.step s).2 = (Storage.db s op.tableName).2.2 ++ extra ∧
      ((op.step s).1).cached n = ((Storage.db s op.tableName).2.1).cached n ∧
      ((op.step s).1).env.createFail = ((Storage.db s op.tableName).2.1).env.createFail := by
  cases op with
  | save impl r =>
      simp only [TraceOp.step, TraceOp.tableName, Storage.save]
      rcases hdb : Storage.db s impl.dbName with ⟨out, s1, evs1⟩
      cases out with
      | ok dbi =>
          rcases hb : impl.toBinary r with _ | bytes
          all_goals simp only [hb]
          · refine ⟨[Event.beginRw], ?_, ?_, ?_, ?_⟩ <;> first | trivial | simp [createFree]
          · rcases ht : s1.env.tableByDbi dbi with _ | t
            all_goals simp only [ht]
            · refine ⟨[Event.beginRw, Event.putOp dbi (impl.key r) bytes], ?_, ?_, ?_, ?_⟩ <;>
                first | trivial | simp [createFree]
            · refine ⟨[Event.beginRw, Event.putOp dbi (impl.key r) bytes, Event.commit],
                ?_, ?_, ?_, ?_⟩ <;> first | trivial | simp [createFree]
      | err e =>
          refine ⟨[], ?_, ?_, ?_, ?_⟩ <;> first | trivial | simp [createFree]
      | panic =>
          refine ⟨[], ?_, ?_, ?_, ?_⟩ <;> first | trivial | simp [createFree]
  | saveBatch impl rs =>
      simp only [TraceOp.step, TraceOp.tableName, Storage.saveBatch]
      rcases hdb : Storage.db s impl.dbName with ⟨out, s1, evs1⟩
      cases out with
      | ok dbi =>
          rcases ht : s1.env.tableByDbi dbi with _ | t
          all_goals simp only [ht]
          · refine ⟨[Event.beginRw], ?_, ?_, ?_, ?_⟩ <;> first | trivial | simp [createFree]
          · rcases hl : saveBatchLoop impl dbi t rs with ⟨tres, puts⟩
            have hputs : createFree puts = true := by
              have hh := saveBatchLoop_events_createFree impl dbi rs t
              rw [hl] at hh
              exact hh
            cases tres with
            | none =>
                simp only [hl]
                refine ⟨Event.beginRw :: puts, ?_, ?_, ?_, ?_⟩
                · show createFree puts = true
                  exact hputs
                · first | trivial | simp
                · first | trivial | simp
                · first | trivial | simp
            | some t2 =>
                simp only [hl]
                refine ⟨Event.beginRw :: (puts ++ [Event.commit]), ?_, ?_, ?_, ?_⟩
                · show createFree (puts ++ [Event.commit]) = true
                  exact createFree_append hputs rfl
                · first | trivial | simp
                · first | trivial | simp
                · first | trivial | simp
      | err e =>
          refine ⟨[], ?_, ?_, ?_, ?_⟩ <;> first | trivial | simp [createFree]
      | panic =>
          refine ⟨[], ?_, ?_, ?_, ?_⟩ <;> first | trivial | simp [createFree]
  | get impl k =>
      simp only [TraceOp.step, TraceOp.tableName, Storage.get]
      rcases hdb : Storage.db s impl.dbName with ⟨out, s1, evs1⟩
      cases out with
      | ok dbi =>
          rcases ht : s1.env.tableByDbi dbi with _ | t
          all_goals simp only [ht]
          · refine ⟨[Event.beginRo, Event.cursorOpen dbi], ?_, ?_, ?_, ?_⟩ <;>
              first | trivial | simp [createFree]
          · rcases hg : tableGet t k with _ | v
            all_goals simp only [hg]
            · refine ⟨[Event.beginRo, Event.cursorOpen dbi, Event.cursorGet dbi],
                ?_, ?_, ?_, ?_⟩ <;> first | trivial | simp [createFree]
            · rcases hv : impl.fromBinary v with _ | r
              all_goals simp only [hv]
              · refine ⟨[Event.beginRo, Event.cursorOpen dbi, Event.cursorGet dbi],
                  ?_, ?_, ?_, ?_⟩ <;> first | trivial | simp [createFree]
              · refine ⟨[Event.beginRo, Event.cursorOpen dbi, Event.cursorGet dbi],
                  ?_, ?_, ?_, ?_⟩ <;> first | trivial | simp [createFree]
      | err e =>
          refine ⟨[], ?_, ?_, ?_, ?_⟩ <;> first | trivial | simp [createFree]
      | panic =>
          refine ⟨[], ?_, ?_, ?_, ?_⟩ <;> first | trivial | simp [createFree]
  | delete impl r =>
      simp only [TraceOp.step, TraceOp.tableName, Storage.delete]
      rcases hdb : Storage.db s impl.dbName with ⟨out, s1, evs1⟩
      cases out with
      | ok dbi =>
          rcases ht : s1.env.tableByDbi dbi with _ | t
          all_goals simp only [ht]
          · refine ⟨[Event.beginRw, Event.delOp dbi (impl.key r)], ?_, ?_, ?_, ?_⟩ <;>
              first | trivial | simp [createFree]
          · rcases hg : tableGet t (impl.key r) with _ | v
            all_goals simp only [hg]
            · refine ⟨[Event.beginRw, Event.delOp dbi (impl.key r)], ?_, ?_, ?_, ?_⟩ <;>
                first | trivial | simp [createFree]
            · refine ⟨[Event.beginRw, Event.delOp dbi (impl.key r), Event.commit],
                ?_, ?_, ?_, ?_⟩ <;> first | trivial | simp [createFree]
      | err e =>
          refine ⟨[], ?_, ?_, ?_, ?_⟩ <;> first | trivial | simp [createFree]
      | panic =>
          refine ⟨[], ?_, ?_, ?_, ?_⟩ <;> first | trivial | simp [createFree]
  | query impl =>
      simp only [TraceOp.step, TraceOp.tableName, Storage.query]
      rcases hdb : Storage.db s impl.dbName with ⟨out, s1, evs1⟩
      cases out with
      | ok dbi =>
          refine ⟨[Event.beginRo], ?_, ?_, ?_, ?_⟩ <;> first | trivial | simp [createFree]
      | err e =>
          refine ⟨[], ?_, ?_, ?_, ?_⟩ <;> first | trivial | simp [createFree]
      | panic =>
          refine ⟨[], ?_, ?_, ?_, ?_⟩ <;> first | trivial | simp [createFree]
  | find impl p =>
      simp only [TraceOp.step, TraceOp.tableName, Storage.find, Storage.query]
      rcases hdb : Storage.db s impl.dbName with ⟨out, s1, evs1⟩
      cases out with
      | ok dbi =>
          refine ⟨Event.beginRo ::
              (RoQuery.findLoop p
                { impl := impl, db := dbi, txnView := (s1.env.tableByDbi dbi).getD [],
                  iter := none }
                (((s1.env.tableByDbi dbi).getD []).length + 2)).2.2, ?_, ?_, ?_, ?_⟩
          · show createFree (RoQuery.findLoop p _ _).2.2 = true
            exact findLoop_events_createFree p _ _
          · first | trivial | simp
          · first | trivial | simp
          · first | trivial | simp
      | err e =>
          refine ⟨[], ?_, ?_, ?_, ?_⟩ <;> first | trivial | simp [createFree]
      | panic =>
          refine ⟨[], ?_, ?_, ?_, ?_⟩ <;> first | trivial | simp [createFree]
  | truncate impl =>
      simp only [TraceOp.step, TraceOp.tableName, Storage.truncate]
      rcases hdb : Storage.db s impl.dbName with ⟨out, s1, evs1⟩
      cases out with
      | ok dbi =>
          rcases ht : s1.env.tableByDbi dbi with _ | t
          all_goals simp only [ht]
          · refine ⟨[Event.beginRw, Event.clearDb dbi], ?_, ?_, ?_, ?_⟩ <;>
              first | trivial | simp [createFree]
          · refine ⟨[Event.beginRw, Event.clearDb dbi, Event.commit], ?_, ?_, ?_, ?_⟩ <;>
              first | trivial | simp [createFree]
      | err e =>
          refine ⟨[], ?_, ?_, ?_, ?_⟩ <;> first | trivial | simp [createFree]
      | panic =>
          refine ⟨[], ?_, ?_, ?_, ?_⟩ <;> first | trivial | simp [createFree]
  | dropTable impl =>
      have hne : impl.dbName ≠ n := by
        simpa [TraceOp.isDropOf, decide_eq_true_eq] using hd
      simp only [TraceOp.step, TraceOp.tableName, Storage.drop]
      rcases hdb : Storage.db s impl.dbName with ⟨out, s1, evs1⟩
      cases out with
      | ok dbi =>
          rcases ht : s1.env.tableByDbi dbi with _ | t
          all_goals simp only [ht]
          · refine ⟨[Event.beginRw, Event.dropDb dbi], ?_, ?_, ?_, ?_⟩ <;>
              first | trivial | simp [createFree]
          · refine ⟨[Event.beginRw, Event.dropDb dbi, Event.commit], ?_, ?_, ?_, ?_⟩
            · first | trivial | simp [createFree]
            · first | trivial | simp
            · show Storage.cached _ n = Storage.cached s1 n
              simp only [Storage.cached]
              rw [find_filter_other hne]
            · first | trivial | simp
      | err e =>
          refine ⟨[], ?_, ?_, ?_, ?_⟩ <;> first | trivial | simp [createFree]
      | panic =>
          refine ⟨[], ?_, ?_, ?_, ?_⟩ <;> first | trivial | simp [createFree]

/-- How one public call treats one table name's cache entry: a cached
entry survives (unless the call is drop-table on that name) with no
`create_db` call for it; an uncached name either stays uncached with no
`create_db` call, or sees exactly one `create_db` call, which caches a
handle when the engine call succeeds.  The fault model is untouched. -/
theorem step_cache {R : Type} (op : TraceOp R) (s : Storage) (n : String)
    (hd : op.isDropOf n = false) :
    (∀ dbi, s.cached n = some dbi →
       ((op.step s).1).cached n = some dbi ∧ countCreates n (op.step s).2 = 0) ∧
    (s.cached n = none →
       (countCreates n (op.step s).2 = 0 ∧ ((op.step s).1).cached n = none) ∨
       (countCreates n (op.step s).2 = 1 ∧
         (n ∉ s.env.createFail → ∃ d, ((op.step s).1).cached n = some d))) ∧
    ((op.step s).1).env.createFail = s.env.createFail := by
  obtain ⟨extra, hcf, hev, hca, hfail⟩ := step_shape op s n hd
  have hextra : countCreates n extra = 0 := countCreates_eq_zero_of_createFree hcf
  have hcount : countCreates n (op.step s).2 = countCreates n (Storage.db s op.tableName).2.2 := by
    rw [hev, countCreates_append, hextra]
    omega
  refine ⟨?_, ?_, ?_⟩
  · intro dbi hdbi
    by_cases hm : op.tableName = n
    · have hhit : Storage.db s op.tableName = (Outcome.ok dbi, s, []) := by
        rw [hm]; exact db_cached_hit hdbi
      constructor
      · rw [hca, hhit]; exact hdbi
      · rw [hcount, hhit]; rfl
    · constructor
      · rw [hca, db_cached_other (Ne.symm hm)]; exact hdbi
      · rw [hcount, db_events]
        rcases s.cached op.tableName with _ | d
        · simp [countCreates, hm]
        · simp [countCreates]
  · intro hnone
    by_cases hm : op.tableName = n
    · subst hm
      right
      have hev' : (Storage.db s op.tableName).2.2 = [Event.createDb op.tableName] := by
        rw [db_events, hnone]; rfl
      constructor
      · rw [hcount, hev']; simp [countCreates]
      · intro hf
        obtain ⟨dbi, _, hcache⟩ := db_miss_caches hnone hf
        exact ⟨dbi, by rw [hca]; exact hcache⟩
    · left
      constructor
      · rw [hcount, db_events]
        rcases s.cached op.tableName with _ | d
        · simp [countCreates, hm]
        · simp [countCreates]
      · rw [hca, db_cached_other (Ne.symm hm)]; exact hnone
  · rw [hfail, db_createFail]

/-- Over any drop-free call sequence with a working engine: a cached
handle persists untouched with no `create_db` calls for its name, an
uncached name sees at most one `create_db` call, and the fault model is
preserved. -/
theorem runTrace_cache {R : Type} (trace : List (TraceOp R)) (s : Storage) (n : String)
    (hd : ∀ op ∈ trace, op.isDropOf n = false) (hf : n ∉ s.env.createFail) :
    (∀ dbi, s.cached n = some dbi →
       ((runTrace trace s).1).cached n = some dbi ∧
       countCreates n (runTrace trace s).2 = 0) ∧
    (s.cached n = none → countCreates n (runTrace trace s).2 ≤ 1) ∧
    ((runTrace trace s).1).env.createFail = s.env.createFail := by
  induction trace generalizing s with
  | nil => exact ⟨fun dbi h => ⟨h, rfl⟩, fun _ => by simp [runTrace, countCreates], rfl⟩
  | cons op ops ih =>
      have hdop : op.isDropOf n = false := hd op (List.mem_cons_self op ops)
      have hdops : ∀ o ∈ ops, o.isDropOf n = false := fun o ho => hd o (List.mem_cons_of_mem op ho)
      obtain ⟨hsome, hnone, hfail⟩ := step_cache op s n hdop
      have hf1 : n ∉ ((op.step s).1).env.createFail := by rw [hfail]; exact hf
      obtain ⟨ihsome, ihnone, ihfail⟩ := ih ((op.step s).1) hdops hf1
      have hrun : runTrace (op :: ops) s =
          ((runTrace ops (op.step s).1).1, (op.step s).2 ++ (runTrace ops (op.step s).1).2) := rfl
      refine ⟨?_, ?_, ?_⟩
      · intro dbi hdbi
        obtain ⟨hs1, hc1⟩ := hsome dbi hdbi
        obtain ⟨hs2, hc2⟩ := ihsome dbi hs1
        rw [hrun]
        exact ⟨hs2, by simp [countCreates_append, hc1, hc2]⟩
      · intro hn
        rw [hrun]
        simp only [countCreates_append]
        rcases hnone hn with ⟨hc1, hs1⟩ | ⟨hc1, hs1⟩
        · have := ihnone hs1
          omega
        · obtain ⟨d, hdd⟩ := hs1 hf
          obtain ⟨_, hc2⟩ := ihsome d hdd
          omega
      · rw [hrun]
        simpa [hfail] using ihfail

/-- A successful `Storage::save`: table resolved, one transaction, the
put applied, committed. -/
theorem save_spec {R : Type} (impl : RecordImpl R) (s : Storage) (r : R)
    {dbi : Nat} {s1 : Storage} {evs1 : List Event} {t : Table} {b : Bytes}
    (h1 : Storage.db s impl.dbName = (Outcome.ok dbi, s1, evs1))
    (h2 : s1.env.tableByDbi dbi = some t)
    (hb : impl.toBinary r = some b) :
    Storage.save impl s r =
      (Outcome.ok (), { s1 with env := s1.env.setTable dbi (tablePut t (impl.key r) b) },
       evs1 ++ [Event.beginRw] ++ [Event.putOp dbi (impl.key r) b, Event.commit]) := by
  simp only [Storage.save, h1, hb, h2]

/-- C3: integer key encoding is fixed-width big-endian — a `Key<u32>`
encodes to exactly 4 bytes and a `Key<u64>` to exactly 8, and numeric
order coincides with byte-lexicographic order of the encodings. -/
theorem c3_key_encoding_order_preserving (a b c d : Nat)
    (ha : a < 2 ^ 32) (hb : b < 2 ^ 32) (hc : c < 2 ^ 64) (hd : d < 2 ^ 64) :
    (keyU32IntoBytes a).length = 4 ∧ (keyU64IntoBytes c).length = 8 ∧
    (a ≤ b ↔ lexLe (keyU32IntoBytes a) (keyU32IntoBytes b) = true) ∧
    (c ≤ d ↔ lexLe (keyU64IntoBytes c) (keyU64IntoBytes d) = true) := by
  have h32 : (2 : Nat) ^ 32 = 256 ^ 4 := by norm_num
  have h64 : (2 : Nat) ^ 64 = 256 ^ 8 := by norm_num
  rw [h32] at ha hb
  rw [h64] at hc hd
  exact ⟨beBytes_length 4 a, beBytes_length 8 c,
    (lexLe_beBytes 4 a b ha hb).symm, (lexLe_beBytes 8 c d hc hd).symm⟩

/-- Witness for C3 at concrete inputs. -/
theorem c3_key_encoding_order_preserving_witness :
    (keyU32IntoBytes 3).length = 4 ∧ (keyU64IntoBytes 5).length = 8 ∧
    (3 ≤ 7 ↔ lexLe (keyU32IntoBytes 3) (keyU32IntoBytes 7) = true) ∧
    (5 ≤ 6 ↔ lexLe (keyU64IntoBytes 5) (keyU64IntoBytes 6) = true) :=
  c3_key_encoding_order_preserving 3 7 5 6 (by norm_num) (by norm_num) (by norm_num) (by norm_num)

/-- C4: for the persisted record shape (the `Person { id: u32, name:
String }` struct, with the `Record` trait's default bincode
`to_binary`/`from_binary`), decoding an encoding reproduces the record,
and the encoding is a function of the record value alone. -/
theorem c4_record_roundtrip (p : Person) (hid : p.id < 2 ^ 32)
    (hlen : p.name.length < 2 ^ 64) :
    personImpl.toBinary p = some (Person.toBinary p) ∧
    Person.fromBinary (Person.toBinary p) = some p ∧
    (∀ q : Person, q = p → Person.toBinary q = Person.toBinary p) := by
  refine ⟨rfl, ?_, fun q hq => by rw [hq]⟩
  rcases p with ⟨pid, pname⟩
  simp only at hid hlen
  have h32 : (2 : Nat) ^ 32 = 256 ^ 4 := by norm_num
  have h64 : (2 : Nat) ^ 64 = 256 ^ 8 := by norm_num
  have hlen4 : (leBytes 4 pid).length = 4 := leBytes_length 4 pid
  have hlen8 : (leBytes 8 pname.length).length = 8 := leBytes_length 8 pname.length
  unfold Person.toBinary Person.fromBinary
  simp only
  have hbs : (leBytes 4 pid ++ (leBytes 8 pname.length ++ pname)).length =
      12 + pname.length := by
    simp [hlen4, hlen8]
    omega
  rw [if_pos (by rw [hbs]; omega)]
  have hdrop4 : (leBytes 4 pid ++ (leBytes 8 pname.length ++ pname)).drop 4 =
      leBytes 8 pname.length ++ pname := List.drop_left' hlen4
  have htake8 : (leBytes 8 pname.length ++ pname).take 8 = leBytes 8 pname.length :=
    List.take_left' hlen8
  have hdrop12 : (leBytes 4 pid ++ (leBytes 8 pname.length ++ pname)).drop 12 = pname := by
    rw [← List.append_assoc]
    exact List.drop_left' (by simp [hlen4, hlen8])
  have htake4 : (leBytes 4 pid ++ (leBytes 8 pname.length ++ pname)).take 4 =
      leBytes 4 pid := List.take_left' hlen4
  rw [hdrop4, htake8, hdrop12, htake4]
  rw [leVal_leBytes 8 pname.length (by rw [← h64]; exact hlen)]
  rw [if_pos le_rfl]
  rw [leVal_leBytes 4 pid (by rw [← h32]; exact hid)]
  rw [List.take_length]

/-- Witness for C4 at a concrete record. -/
theorem c4_record_roundtrip_witness :
    personImpl.toBinary ⟨1, [86, 105]⟩ = some (Person.toBinary ⟨1, [86, 105]⟩) ∧
    Person.fromBinary (Person.toBinary ⟨1, [86, 105]⟩) = some ⟨1, [86, 105]⟩ ∧
    (∀ q : Person, q = ⟨1, [86, 105]⟩ → Person.toBinary q = Person.toBinary ⟨1, [86, 105]⟩) :=
  c4_record_roundtrip ⟨1, [86, 105]⟩ (by norm_num) (by norm_num)

/-- C1 (amended): `Storage::get` returns the decoded record when the
key is present and its bytes decode; swallows a decode failure into the
"not found" result `Ok(None)`; but on an absent key the cursor's
`NotFound` error propagates through `?`, so `get` returns
`Err(DBError(NotFound))` rather than `Ok(None)`. -/
theorem c1_get_result_amended {R : Type} (impl : RecordImpl R) (s : Storage) (k : Bytes)
    {dbi : Nat} {s1 : Storage} {evs1 : List Event} {t : Table}
    (h1 : Storage.db s impl.dbName = (Outcome.ok dbi, s1, evs1))
    (h2 : s1.env.tableByDbi dbi = some t) :
    (∀ v r, tableGet t k = some v → impl.fromBinary v = some r →
       (Storage.get impl s k).1 = Outcome.ok (some r)) ∧
    (∀ v, tableGet t k = some v → impl.fromBinary v = none →
       (Storage.get impl s k).1 = Outcome.ok none) ∧
    (tableGet t k = none →
       (Storage.get impl s k).1 = Outcome.err (StorageError.dbError LmdbError.notFound)) := by
  refine ⟨?_, ?_, ?_⟩
  · intro v r hv hr
    simp only [Storage.get, h1, h2, hv, hr]
  · intro v hv hr
    simp only [Storage.get, h1, h2, hv, hr]
  · intro hv
    simp only [Storage.get, h1, h2, hv]

/-- Counterexample to C1 as stated: on a storage whose `"Person"` table
is empty, `get` of an absent key returns the engine `NotFound` error,
not the claimed `Ok(None)`. -/
theorem c1_get_absent_key_counterexample :
    (Storage.get personImpl personStorage0 (keyU32IntoBytes 2)).1 =
      Outcome.err (StorageError.dbError LmdbError.notFound) ∧
    (Storage.get personImpl personStorage0 (keyU32IntoBytes 2)).1 ≠
      Outcome.ok none := by
  constructor
  · rfl
  · decide

/-- Witness for C1 (amended) on a table holding one decodable and one
undecodable entry. -/
theorem c1_get_result_amended_witness :
    (Storage.get personImpl personStorage1 (keyU32IntoBytes 1)).1 =
      Outcome.ok (some ⟨1, [86]⟩) ∧
    (Storage.get personImpl personStorage1 (keyU32IntoBytes 2)).1 = Outcome.ok none ∧
    (Storage.get personImpl personStorage1 (keyU32IntoBytes 3)).1 =
      Outcome.err (StorageError.dbError LmdbError.notFound) := by
  have h := c1_get_result_amended personImpl personStorage1 (keyU32IntoBytes 1) rfl rfl
  have h2 := c1_get_result_amended personImpl personStorage1 (keyU32IntoBytes 2) rfl rfl
  have h3 := c1_get_result_amended personImpl personStorage1 (keyU32IntoBytes 3) rfl rfl
  exact ⟨h.1 (Person.toBinary ⟨1, [86]⟩) ⟨1, [86]⟩ (by decide) (by decide),
    h2.2.1 [7] (by decide) (by decide),
    h3.2.2 (by decide)⟩

/-- C5 (amended): `Storage::new` returns `FileError` when the directory
cannot be created; but when the engine environment cannot be opened it
panics (`builder.open(p).unwrap()`) instead of returning the engine
error kind; with neither failure it returns a fresh storage value. -/
theorem c5_new_failure_modes_amended (w : World) :
    (∀ code, w.createDirFail = some code →
       Storage.new w = Outcome.err (StorageError.fileError code)) ∧
    (∀ e, w.createDirFail = none → w.envOpenFail = some e →
       Storage.new w = Outcome.panic) ∧
    (w.createDirFail = none → w.envOpenFail = none →
       Storage.new w = Outcome.ok { env := Env.empty, dbs := [] }) := by
  refine ⟨?_, ?_, ?_⟩
  · intro code hc
    simp only [Storage.new, hc]
  · intro e hc he
    simp only [Storage.new, hc, he]
  · intro hc he
    simp only [Storage.new, hc, he]

/-- Counterexample to C5 as stated: when the environment cannot be
opened, `Storage::new` panics; it does not return the engine-operation
error kind (nor any error). -/
theorem c5_env_open_counterexample :
    Storage.new ⟨none, some (LmdbError.other 7)⟩ = Outcome.panic ∧
    Storage.new ⟨none, some (LmdbError.other 7)⟩ ≠
      Outcome.err (StorageError.dbError (LmdbError.other 7)) := by
  constructor
  · rfl
  · decide

/-- Witness for C5 (amended) at concrete worlds. -/
theorem c5_new_failure_modes_amended_witness :
    Storage.new ⟨some 5, none⟩ = Outcome.err (StorageError.fileError 5) ∧
    Storage.new ⟨none, some LmdbError.notFound⟩ = Outcome.panic ∧
    Storage.new ⟨none, none⟩ = Outcome.ok { env := Env.empty, dbs := [] } :=
  ⟨(c5_new_failure_modes_amended ⟨some 5, none⟩).1 5 rfl,
   (c5_new_failure_modes_amended ⟨none, some LmdbError.notFound⟩).2.1 LmdbError.notFound rfl rfl,
   (c5_new_failure_modes_amended ⟨none, none⟩).2.2 rfl rfl⟩

/-- C9: upsert semantics — saving a record at a key that already holds
a value succeeds without any conflict result, and a subsequent `get` at
that key returns the latest saved value, never the prior one. -/
theorem c9_save_upsert_latest {R : Type} (impl : RecordImpl R) (s : Storage) (r1 r2 : R)
    {dbi : Nat} {s1 : Storage} {evs1 : List Event} {t : Table} {b1 b2 : Bytes}
    (h1 : Storage.db s impl.dbName = (Outcome.ok dbi, s1, evs1))
    (h2 : s1.env.tableByDbi dbi = some t)
    (hk : impl.key r1 = impl.key r2)
    (hb1 : impl.toBinary r1 = some b1)
    (hb2 : impl.toBinary r2 = some b2)
    (hrt : impl.fromBinary b2 = some r2) :
    (Storage.save impl s r1).1 = Outcome.ok () ∧
    (Storage.save impl ((Storage.save impl s r1).2.1) r2).1 = Outcome.ok () ∧
    (Storage.get impl ((Storage.save impl ((Storage.save impl s r1).2.1) r2).2.1)
        (impl.key r2)).1 = Outcome.ok (some r2) := by
  have hsave1 := save_spec impl s r1 h1 h2 hb1
  have hc1 : s1.cached impl.dbName = some dbi := db_ok_cached h1
  have hcA : Storage.cached
      { env := s1.env.setTable dbi (tablePut t (impl.key r1) b1), dbs := s1.dbs }
      impl.dbName = some dbi := hc1
  have hdbA : Storage.db
      { env := s1.env.setTable dbi (tablePut t (impl.key r1) b1), dbs := s1.dbs }
      impl.dbName =
      (Outcome.ok dbi,
       { env := s1.env.setTable dbi (tablePut t (impl.key r1) b1), dbs := s1.dbs }, []) :=
    db_cached_hit hcA
  have htblA : Env.tableByDbi (s1.env.setTable dbi (tablePut t (impl.key r1) b1)) dbi =
      some (tablePut t (impl.key r1) b1) :=
    tableByDbi_setTable s1.env dbi _ t h2
  have hsave2 := save_spec impl
    { env := s1.env.setTable dbi (tablePut t (impl.key r1) b1), dbs := s1.dbs } r2 hdbA htblA hb2
  have hcB : Storage.cached
      { env := (s1.env.setTable dbi (tablePut t (impl.key r1) b1)).setTable dbi
          (tablePut (tablePut t (impl.key r1) b1) (impl.key r2) b2), dbs := s1.dbs }
      impl.dbName = some dbi := hc1
  have hdbB : Storage.db
      { env := (s1.env.setTable dbi (tablePut t (impl.key r1) b1)).setTable dbi
          (tablePut (tablePut t (impl.key r1) b1) (impl.key r2) b2), dbs := s1.dbs }
      impl.dbName =
      (Outcome.ok dbi,
       { env := (s1.env.setTable dbi (tablePut t (impl.key r1) b1)).setTable dbi
           (tablePut (tablePut t (impl.key r1) b1) (impl.key r2) b2), dbs := s1.dbs }, []) :=
    db_cached_hit hcB
  have htblB : Env.tableByDbi
      ((s1.env.setTable dbi (tablePut t (impl.key r1) b1)).setTable dbi
        (tablePut (tablePut t (impl.key r1) b1) (impl.key r2) b2)) dbi =
      some (tablePut (tablePut t (impl.key r1) b1) (impl.key r2) b2) :=
    tableByDbi_setTable _ dbi _ _ htblA
  have hgetB : tableGet (tablePut (tablePut t (impl.key r1) b1) (impl.key r2) b2)
      (impl.key r2) = some b2 :=
    tableGet_tablePut_self _ _ _
  refine ⟨?_, ?_, ?_⟩
  · rw [hsave1]
  · simp only [hsave1]
    rw [hsave2]
  · simp only [hsave1, hsave2]
    simp only [Storage.get, hdbB, htblB, hgetB, hrt]

/-- Witness for C9: two writes to key 1 followed by a read. -/
theorem c9_save_upsert_latest_witness :
    (Storage.save personImpl personStorage0 ⟨1, [86]⟩).1 = Outcome.ok () ∧
    (Storage.save personImpl ((Storage.save personImpl personStorage0 ⟨1, [86]⟩).2.1)
        ⟨1, [80]⟩).1 = Outcome.ok () ∧
    (Storage.get personImpl
        ((Storage.save personImpl ((Storage.save personImpl personStorage0 ⟨1, [86]⟩).2.1)
            ⟨1, [80]⟩).2.1)
        (personImpl.key ⟨1, [80]⟩)).1 = Outcome.ok (some ⟨1, [80]⟩) :=
  c9_save_upsert_latest personImpl personStorage0 ⟨1, [86]⟩ ⟨1, [80]⟩
    rfl rfl rfl rfl rfl (by decide)

/-- C10: every read-only typed operation (`get`, `query`, `find`) first
resolves its table through the handle cache; on a never-referenced
record type this issues the engine create-or-open call, inserts the
handle into the cache, and leaves an empty table for that type in the
environment. -/
theorem c10_read_ops_create_table {R : Type} (impl : RecordImpl R) (s : Storage)
    (k : Bytes) (p : R → Bool)
    (hc : s.cached impl.dbName = none)
    (he : s.env.tables.find? (fun d => d.name = impl.dbName) = none)
    (hf : impl.dbName ∉ s.env.createFail)
    (hd : ∀ d ∈ s.env.tables, d.dbi ≠ s.env.nextDbi) :
    (((Storage.get impl s k).2.1).cached impl.dbName = some s.env.nextDbi ∧
     ((Storage.get impl s k).2.1).env.tableByName impl.dbName = some [] ∧
     Event.createDb impl.dbName ∈ (Storage.get impl s k).2.2) ∧
    (((Storage.query impl s).2.1).cached impl.dbName = some s.env.nextDbi ∧
     ((Storage.query impl s).2.1).env.tableByName impl.dbName = some [] ∧
     Event.createDb impl.dbName ∈ (Storage.query impl s).2.2) ∧
    (((Storage.find impl s p).2.1).cached impl.dbName = some s.env.nextDbi ∧
     ((Storage.find impl s p).2.1).env.tableByName impl.dbName = some [] ∧
     Event.createDb impl.dbName ∈ (Storage.find impl s p).2.2) := by
  have hmap : (s.env.tables.find? (fun d => d.name = impl.dbName)).map (·.dbi) = none := by
    rw [he]; rfl
  have hdb : Storage.db s impl.dbName =
      (Outcome.ok s.env.nextDbi, dbMissState s impl.dbName, [Event.createDb impl.dbName]) := by
    unfold Storage.db dbMissState
    rw [hc]
    simp only [hf, if_false, hmap]
  have hcache2 : (dbMissState s impl.dbName).cached impl.dbName = some s.env.nextDbi := by
    unfold dbMissState Storage.cached
    simp only
    rw [List.find?_cons_of_pos _ (by simp)]
    rfl
  have hname2 : (dbMissState s impl.dbName).env.tableByName impl.dbName = some [] := by
    unfold dbMissState Env.tableByName
    simp only
    rw [List.find?_append, he]
    rw [List.find?_cons_of_pos _ (by simp)]
    rfl
  have htbl : (dbMissState s impl.dbName).env.tableByDbi s.env.nextDbi = some [] := by
    unfold dbMissState Env.tableByDbi
    simp only
    rw [List.find?_append]
    have hnone : s.env.tables.find? (fun d => decide (d.dbi = s.env.nextDbi)) = none := by
      rw [List.find?_eq_none]
      intro d hdm
      simpa using hd d hdm
    rw [hnone]
    rw [List.find?_cons_of_pos _ (by simp)]
    rfl
  have hg : tableGet [] k = none := rfl
  refine ⟨?_, ?_, ?_⟩
  · simp only [Storage.get, hdb, htbl, hg]
    exact ⟨hcache2, hname2, by simp⟩
  · simp only [Storage.query, hdb]
    exact ⟨hcache2, hname2, by simp⟩
  · simp only [Storage.find, Storage.query, hdb]
    exact ⟨hcache2, hname2, by simp⟩

/-- Witness for C10 on a freshly opened storage value. -/
theorem c10_read_ops_create_table_witness :
    (((Storage.get personImpl ⟨Env.empty, []⟩ (keyU32IntoBytes 1)).2.1).cached "Person" =
       some 0 ∧
     ((Storage.get personImpl ⟨Env.empty, []⟩ (keyU32IntoBytes 1)).2.1).env.tableByName
       "Person" = some [] ∧
     Event.createDb "Person" ∈ (Storage.get personImpl ⟨Env.empty, []⟩ (keyU32IntoBytes 1)).2.2) ∧
    (((Storage.query personImpl ⟨Env.empty, []⟩).2.1).cached "Person" = some 0 ∧
     ((Storage.query personImpl ⟨Env.empty, []⟩).2.1).env.tableByName "Person" = some [] ∧
     Event.createDb "Person" ∈ (Storage.query personImpl ⟨Env.empty, []⟩).2.2) ∧
    (((Storage.find personImpl ⟨Env.empty, []⟩ (fun _ => true)).2.1).cached "Person" = some 0 ∧
     ((Storage.find personImpl ⟨Env.empty, []⟩ (fun _ => true)).2.1).env.tableByName "Person" =
       some [] ∧
     Event.createDb "Person" ∈ (Storage.find personImpl ⟨Env.empty, []⟩ (fun _ => true)).2.2) :=
  c10_read_ops_create_table personImpl ⟨Env.empty, []⟩ (keyU32IntoBytes 1) (fun _ => true)
    rfl rfl (by simp [Env.empty]) (by simp [Env.empty])

/-- When every record of the batch serializes, the loop puts each
key→bytes pair in input order and yields the folded table. -/
theorem saveBatchLoop_ok {R : Type} (impl : RecordImpl R) (dbi : Nat) :
    ∀ (rs : List R) (t : Table), (∀ r ∈ rs, (impl.toBinary r).isSome) →
    saveBatchLoop impl dbi t rs =
      (some (batchPut impl t rs),
       rs.map (fun r => Event.putOp dbi (impl.key r) ((impl.toBinary r).getD []))) := by
  intro rs
  induction rs with
  | nil => intro t h; rfl
  | cons r rs ih =>
      intro t h
      have hr : (impl.toBinary r).isSome := h r (List.mem_cons_self r rs)
      rcases hb : impl.toBinary r with _ | b
      · rw [hb] at hr; simp at hr
      · simp only [saveBatchLoop, hb]
        rw [ih (tablePut t (impl.key r) b) (fun x hx => h x (List.mem_cons_of_mem r hx))]
        simp [batchPut, hb]

/-- When some record of the batch fails to serialize, the loop panics
(returns no table). -/
theorem saveBatchLoop_fail {R : Type} (impl : RecordImpl R) (dbi : Nat) :
    ∀ (rs : List R) (t : Table), (∃ r ∈ rs, impl.toBinary r = none) →
    (saveBatchLoop impl dbi t rs).1 = none := by
  intro rs
  induction rs with
  | nil => intro t h; simp at h
  | cons r rs ih =>
      intro t h
      rcases hb : impl.toBinary r with _ | b
      · unfold saveBatchLoop
        rw [hb]
      · unfold saveBatchLoop
        rw [hb]
        rcases h with ⟨x, hx, hxe⟩
        rcases List.mem_cons.1 hx with hxr | hxm
        · rw [hxr] at hxe; rw [hxe] at hb; cases hb
        · simpa using ih (tablePut t (impl.key r) b) ⟨x, hxm, hxe⟩

/-- Every event the `save_batch` loop emits is a put. -/
theorem saveBatchLoop_events_shape {R : Type} (impl : RecordImpl R) (dbi : Nat) :
    ∀ (rs : List R) (t : Table), ∀ e ∈ (saveBatchLoop impl dbi t rs).2,
      ∃ d kk v, e = Event.putOp d kk v := by
  intro rs
  induction rs with
  | nil =>
      intro t e he
      simp [saveBatchLoop] at he
  | cons r rs ih =>
      intro t e he
      unfold saveBatchLoop at he
      rcases hb : impl.toBinary r with _ | b
      · rw [hb] at he
        simp at he
      · rw [hb] at he
        simp only [List.mem_cons] at he
        rcases he with he | he
        · exact ⟨dbi, impl.key r, b, he⟩
        · exact ih (tablePut t (impl.key r) b) e he

/-- A list of put events contains no `create_db` call. -/
theorem map_put_createFree {R : Type} (impl : RecordImpl R) (dbi : Nat) (rs : List R) :
    createFree (rs.map (fun r => Event.putOp dbi (impl.key r) ((impl.toBinary r).getD []))) =
      true := by
  induction rs with
  | nil => rfl
  | cons r rs ih => simpa [createFree] using ih

/-- Put events carry no transaction or commit markers. -/
theorem count_beginRw_map_put {R : Type} (impl : RecordImpl R) (dbi : Nat) (rs : List R) :
    ((rs.map (fun r => Event.putOp dbi (impl.key r) ((impl.toBinary r).getD []))).count
      Event.beginRw = 0) ∧
    ((rs.map (fun r => Event.putOp dbi (impl.key r) ((impl.toBinary r).getD []))).count
      Event.commit = 0) := by
  constructor <;>
    · rw [List.count_eq_zero]
      intro hmem
      rcases List.mem_map.1 hmem with ⟨r, _, he⟩
      cases he

/-- The `create_db` resolution step emits no transaction or commit
events, and at most one `create_db`. -/
theorem db_events_counts {s : Storage} {name : String} {out : Outcome Nat}
    {s1 : Storage} {evs1 : List Event}
    (h1 : Storage.db s name = (out, s1, evs1)) :
    evs1.count Event.beginRw = 0 ∧ evs1.count Event.commit = 0 ∧
      countCreates name evs1 ≤ 1 := by
  have h := @db_events s name
  rw [h1] at h
  simp only at h
  rcases hc : (s.cached name).isSome with _ | _ <;> rw [hc] at h <;> rw [h] <;>
    simp [countCreates]

/-- C2: `save_batch` resolves the table once, opens one read-write
transaction, applies the puts in the iteration order of the input
`Vec`, and commits once; when every record serializes, all records are
in the committed table; when serialization fails mid-batch, the call
panics with the transaction uncommitted, so the environment's readable
contents are exactly what they were before the call (all-or-nothing). -/
theorem c2_save_batch_atomic {R : Type} (impl : RecordImpl R) (s : Storage)
    (records : List R) {dbi : Nat} {s1 : Storage} {evs1 : List Event} {t : Table}
    (h1 : Storage.db s impl.dbName = (Outcome.ok dbi, s1, evs1))
    (h2 : s1.env.tableByDbi dbi = some t) :
    countCreates impl.dbName (Storage.saveBatch impl s records).2.2 ≤ 1 ∧
    (Storage.saveBatch impl s records).2.2.count Event.beginRw = 1 ∧
    ((∀ r ∈ records, (impl.toBinary r).isSome) →
       Storage.saveBatch impl s records =
         (Outcome.ok (), { s1 with env := s1.env.setTable dbi (batchPut impl t records) },
          evs1 ++ Event.beginRw ::
            (records.map (fun r => Event.putOp dbi (impl.key r) ((impl.toBinary r).getD [])) ++
             [Event.commit])) ∧
       (Storage.saveBatch impl s records).2.2.count Event.commit = 1) ∧
    ((∃ r ∈ records, impl.toBinary r = none) →
       (Storage.saveBatch impl s records).1 = Outcome.panic ∧
       (Storage.saveBatch impl s records).2.2.count Event.commit = 0 ∧
       (Storage.saveBatch impl s records).2.1 = s1 ∧
       (∀ m kk, ((Storage.saveBatch impl s records).2.1).env.read m kk = s.env.read m kk)) := by
  obtain ⟨hrw1, hcm1, hcr1⟩ := db_events_counts h1
  have hread : ∀ m kk, s1.env.read m kk = s.env.read m kk := by
    intro m kk
    have h := @db_env_read s impl.dbName m kk
    rw [h1] at h
    exact h
  rcases hall : decide (∀ r ∈ records, (impl.toBinary r).isSome) with _ | _
  · -- some record fails to encode
    have hex : ∃ r ∈ records, impl.toBinary r = none := by
      have hnot := of_decide_eq_false hall
      push_neg at hnot
      rcases hnot with ⟨r, hr, hne⟩
      rcases hbr : impl.toBinary r with _ | b
      · exact ⟨r, hr, hbr⟩
      · rw [hbr] at hne; simp at hne
    rcases hl : saveBatchLoop impl dbi t records with ⟨tres, puts⟩
    have hfl := saveBatchLoop_fail impl dbi records t hex
    rw [hl] at hfl
    simp only at hfl
    subst hfl
    have hbatch : Storage.saveBatch impl s records =
        (Outcome.panic, s1, evs1 ++ [Event.beginRw] ++ puts) := by
      simp only [Storage.saveBatch, h1, h2, hl]
    have hpcf : createFree puts = true := by
      have hh := saveBatchLoop_events_createFree impl dbi records t
      rw [hl] at hh
      exact hh
    have hponly : ∀ e ∈ puts, ∃ d kk v, e = Event.putOp d kk v := by
      intro e he
      have hall2 := saveBatchLoop_events_shape impl dbi records t
      rw [hl] at hall2
      exact hall2 e he
    have hprw : puts.count Event.beginRw = 0 := by
      rw [List.count_eq_zero]
      intro hmem
      rcases hponly Event.beginRw hmem with ⟨d, kk, v, hh⟩
      cases hh
    have hpcm : puts.count Event.commit = 0 := by
      rw [List.count_eq_zero]
      intro hmem
      rcases hponly Event.commit hmem with ⟨d, kk, v, hh⟩
      cases hh
    rw [hbatch]
    refine ⟨?_, ?_, ?_, ?_⟩
    · simp only [countCreates_append, countCreates_eq_zero_of_createFree hpcf]
      simpa [countCreates] using hcr1
    · simp [List.count_append, hrw1, hprw]
    · intro hgood
      exfalso
      rcases hex with ⟨r, hr, hne⟩
      have := hgood r hr
      rw [hne] at this
      simp at this
    · intro _
      exact ⟨rfl, by simp [List.count_append, hcm1, hpcm], rfl, hread⟩
  · -- every record encodes
    have hgood : ∀ r ∈ records, (impl.toBinary r).isSome := of_decide_eq_true hall
    have hl := saveBatchLoop_ok impl dbi records t hgood
    have hbatch : Storage.saveBatch impl s records =
        (Outcome.ok (), { s1 with env := s1.env.setTable dbi (batchPut impl t records) },
         evs1 ++ [Event.beginRw] ++
           records.map (fun r => Event.putOp dbi (impl.key r) ((impl.toBinary r).getD [])) ++
           [Event.commit]) := by
      simp only [Storage.saveBatch, h1, h2, hl]
    obtain ⟨hmrw, hmcm⟩ := count_beginRw_map_put impl dbi records
    rw [hbatch]
    refine ⟨?_, ?_, ?_, ?_⟩
    · have hmapcf := map_put_createFree impl dbi records
      simp only [countCreates_append, countCreates_eq_zero_of_createFree hmapcf]
      simpa [countCreates] using hcr1
    · simp [List.count_append, hrw1, hmrw]
    · intro _
      refine ⟨by simp, by simp [List.count_append, hcm1, hmcm]⟩
    · intro hbad
      exfalso
      rcases hbad with ⟨r, hr, hne⟩
      have := hgood r hr
      rw [hne] at this
      simp at this

/-- Witness for C2: a two-record batch that fully serializes, and a
batch whose second record fails to serialize. -/
theorem c2_save_batch_atomic_witness :
    ((Storage.saveBatch personImpl personStorage0 [⟨1, [86]⟩, ⟨2, [80]⟩]).2.2.count
        Event.beginRw = 1 ∧
     (Storage.saveBatch personImpl personStorage0 [⟨1, [86]⟩, ⟨2, [80]⟩]).1 =
        Outcome.ok ()) ∧
    ((Storage.saveBatch badEncodeImpl personStorage0 [⟨1, [86]⟩, ⟨0, [80]⟩]).1 =
        Outcome.panic ∧
     (Storage.saveBatch badEncodeImpl personStorage0 [⟨1, [86]⟩, ⟨0, [80]⟩]).2.1 =
        personStorage0) := by
  have hok := c2_save_batch_atomic personImpl personStorage0 [⟨1, [86]⟩, ⟨2, [80]⟩]
    rfl rfl
  have hbad := c2_save_batch_atomic badEncodeImpl personStorage0 [⟨1, [86]⟩, ⟨0, [80]⟩]
    rfl rfl
  refine ⟨⟨hok.2.1, ?_⟩, ?_, ?_⟩
  · rw [(hok.2.2.1 (by decide)).1]
  · exact (hbad.2.2.2 ⟨⟨0, [80]⟩, by decide, by decide⟩).1
  · exact (hbad.2.2.2 ⟨⟨0, [80]⟩, by decide, by decide⟩).2.2.1

/-- The `next` on an exhausted cursor: no item, unchanged iterator state,
and still one cursor call against the engine. -/
theorem next_exhausted {R : Type} (q : RoQuery R) (h : q.iter = some []) :
    RoQuery.next q = (none, q, [Event.cursorGet q.db]) := by
  rcases q with ⟨impl, db, view, iter⟩
  simp only at h
  subst h
  rfl

/-- A full loop over an exhausted iterator yields nothing and leaves it
unchanged, whatever the fuel. -/
theorem loopAll_exhausted {R : Type} :
    ∀ (fuel : Nat) (q : RoQuery R), q.iter = some [] → RoQuery.loopAll fuel q = ([], q) := by
  intro fuel
  induction fuel with
  | zero => intro q _; rfl
  | succ fuel _ =>
      intro q h
      unfold RoQuery.loopAll
      rw [next_exhausted q h]

/-- One loop step at a yielded item. -/
theorem loopAll_step_some {R : Type} (fuel : Nat) (q q' : RoQuery R) (r : R)
    (evs : List Event) (h : RoQuery.next q = (some r, q', evs)) :
    RoQuery.loopAll (fuel + 1) q =
      (r :: (RoQuery.loopAll fuel q').1, (RoQuery.loopAll fuel q').2) := by
  conv_lhs => unfold RoQuery.loopAll
  rw [h]

/-- Driving an opened iterator whose remaining entries all decode
yields exactly those decoded records and ends exhausted. -/
theorem loopAll_consume {R : Type} (l : Table) :
    ∀ (fuel : Nat) (q : RoQuery R), q.iter = some l →
    (∀ kv ∈ l, (q.impl.fromBinary kv.2).isSome) → l.length < fuel →
    RoQuery.loopAll fuel q =
      (l.filterMap (fun kv => q.impl.fromBinary kv.2), { q with iter := some ([] : Table) }) := by
  induction l with
  | nil =>
      intro fuel q h _ _
      have hq : ({ q with iter := some ([] : Table) } : RoQuery R) = q := by
        rcases q with ⟨i, d, v, it⟩
        simp only at h
        subst h
        rfl
      rw [hq]
      simpa using loopAll_exhausted fuel q h
  | cons kv l ih =>
      intro fuel q h hdec hlt
      rcases fuel with _ | fuel
      · omega
      rcases kv with ⟨kk, v⟩
      have hv : (q.impl.fromBinary v).isSome := hdec (kk, v) (by simp)
      rcases hvb : q.impl.fromBinary v with _ | r
      · rw [hvb] at hv; simp at hv
      · have hnext : RoQuery.next q =
            (some r, { q with iter := some l }, [Event.cursorGet q.db]) := by
          rcases q with ⟨i, d, vw, it⟩
          simp only at h hvb
          subst h
          simp [RoQuery.next, hvb]
        simp only [RoQuery.loopAll, hnext]
        rw [ih fuel { q with iter := some l } rfl
          (fun x hx => hdec x (List.mem_cons_of_mem (kk, v) hx)) (by simpa using hlt)]
        simp [List.filterMap_cons, hvb]

/-- Driving a freshly created iterator whose snapshot all decodes:
the first `next` creates the cursor, the loop yields each decoded
record, and the iterator ends exhausted. -/
theorem loopAll_fresh {R : Type} (q : RoQuery R) (h : q.iter = none)
    (hdec : ∀ kv ∈ q.txnView, (q.impl.fromBinary kv.2).isSome) :
    RoQuery.loopAll (q.txnView.length + 1) q =
      (q.txnView.filterMap (fun kv => q.impl.fromBinary kv.2),
       { q with iter := some ([] : Table) }) := by
  rcases q with ⟨i, d, vw, it⟩
  simp only at h hdec ⊢
  subst h
  rcases vw with _ | ⟨⟨kk, v⟩, rest⟩
  · rfl
  · have hv : (i.fromBinary v).isSome := hdec (kk, v) (by simp)
    rcases hvb : i.fromBinary v with _ | r
    · rw [hvb] at hv; simp at hv
    · have hnext : RoQuery.next ⟨i, d, (kk, v) :: rest, none⟩ =
          (some r, ⟨i, d, (kk, v) :: rest, some rest⟩,
           [Event.cursorOpen d, Event.cursorGet d]) := by
        simp [RoQuery.next, hvb]
      rw [show ((kk, v) :: rest).length + 1 = rest.length + 1 + 1 from by simp]
      rw [loopAll_step_some (rest.length + 1) _ _ _ _ hnext]
      rw [loopAll_consume rest (rest.length + 1) ⟨i, d, (kk, v) :: rest, some rest⟩ rfl
        (fun x hx => hdec x (List.mem_cons_of_mem (kk, v) hx)) (by omega)]
      simp [List.filterMap_cons, hvb]

/-- All-`some` filter-maps preserve length. -/
theorem length_filterMap_of_isSome {α β : Type} (f : α → Option β) :
    ∀ l : List α, (∀ a ∈ l, (f a).isSome) → (l.filterMap f).length = l.length := by
  intro l
  induction l with
  | nil => intro _; rfl
  | cons a l ih =>
      intro h
      have ha := h a (List.mem_cons_self a l)
      rcases hfa : f a with _ | b
      · rw [hfa] at ha; simp at ha
      · simp only [List.filterMap_cons, hfa, List.length_cons]
        rw [ih (fun x hx => h x (List.mem_cons_of_mem a hx))]

/-- C7 (amended): `query` hands out the iterator with no cursor created
(only resolution and the read-transaction begin happen); the first
`next` creates the cursor; when the cursor is exhausted every further
`next` returns no item and leaves the iterator unchanged — though each
such call still issues one cursor read against the engine — so a full
second loop over the same iterator yields nothing; and over an all-
decodable snapshot of N entries the loop produces exactly the N decoded
records. -/
theorem c7_query_iterator_amended {R : Type} (impl : RecordImpl R) (s : Storage)
    {q0 : RoQuery R} {s' : Storage} {evs : List Event}
    (hq : Storage.query impl s = (Outcome.ok q0, s', evs)) :
    q0.iter = none ∧
    (∀ e ∈ evs, e = Event.createDb impl.dbName ∨ e = Event.beginRo) ∧
    (∀ q : RoQuery R, q.iter = some [] →
       RoQuery.next q = (none, q, [Event.cursorGet q.db])) ∧
    (∀ (fuel : Nat) (q : RoQuery R), q.iter = some [] →
       RoQuery.loopAll fuel q = ([], q)) ∧
    ((∀ kv ∈ q0.txnView, (impl.fromBinary kv.2).isSome) →
       (RoQuery.loopAll (q0.txnView.length + 1) q0).1 =
         q0.txnView.filterMap (fun kv => impl.fromBinary kv.2) ∧
       (RoQuery.loopAll (q0.txnView.length + 1) q0).1.length = q0.txnView.length ∧
       ((RoQuery.loopAll (q0.txnView.length + 1) q0).2).iter = some []) := by
  unfold Storage.query at hq
  rcases hdb : Storage.db s impl.dbName with ⟨out, s1, evs1⟩
  rw [hdb] at hq
  cases out with
  | ok dbi =>
      simp only [Prod.mk.injEq, Outcome.ok.injEq] at hq
      obtain ⟨hq0, hs', hevs⟩ := hq
      have hiter : q0.iter = none := by rw [← hq0]
      have himpl : q0.impl = impl := by rw [← hq0]
      refine ⟨hiter, ?_, fun q hx => next_exhausted q hx,
        fun fuel q hx => loopAll_exhausted fuel q hx, ?_⟩
      · intro e he
        rw [← hevs] at he
        have hevs1 := @db_events s impl.dbName
        rw [hdb] at hevs1
        simp only at hevs1
        rcases hc : s.cached impl.dbName with _ | d
        · simp only [hc, Option.isSome_none, Bool.false_eq_true, if_false] at hevs1
          rw [hevs1] at he
          simp at he
          rcases he with he | he
          · exact Or.inl (by rw [he])
          · exact Or.inr (by rw [he])
        · simp only [hc, Option.isSome_some, if_true] at hevs1
          rw [hevs1] at he
          simp at he
          exact Or.inr (by rw [he])
      · intro hdec
        have hdec' : ∀ kv ∈ q0.txnView, (q0.impl.fromBinary kv.2).isSome := by
          rw [himpl]; exact hdec
        have hl := loopAll_fresh q0 hiter hdec'
        rw [hl]
        refine ⟨by rw [himpl], ?_, rfl⟩
        simp only [himpl]
        exact length_filterMap_of_isSome _ q0.txnView hdec
  | err e =>
      simp only [Prod.mk.injEq] at hq
      exact absurd hq.1 (by simp)
  | panic =>
      simp only [Prod.mk.injEq] at hq
      exact absurd hq.1 (by simp)

/-- Counterexample to C7 as stated: a `next` call on an exhausted
iterator still issues an engine cursor call (there is no `Exhausted`
latch in `RoQuery`), so its engine-call list is not empty. -/
theorem c7_exhausted_retouch_counterexample :
    (RoQuery.next qExhausted).1 = none ∧
    (RoQuery.next qExhausted).2.2 = [Event.cursorGet 0] ∧
    (RoQuery.next qExhausted).2.2 ≠ [] := by
  refine ⟨rfl, rfl, by decide⟩

/-- Witness for C7 (amended) on a two-record table. -/
theorem c7_query_iterator_amended_witness :
    ((Storage.query personImpl personStorage2).1 =
       Outcome.ok ⟨personImpl, 0, personTable2, none⟩) ∧
    (RoQuery.loopAll (personTable2.length + 1) ⟨personImpl, 0, personTable2, none⟩).1.length =
      personTable2.length ∧
    RoQuery.loopAll 5 ((RoQuery.loopAll (personTable2.length + 1)
      ⟨personImpl, 0, personTable2, none⟩).2) =
      ([], (RoQuery.loopAll (personTable2.length + 1) ⟨personImpl, 0, personTable2, none⟩).2) := by
  have h := c7_query_iterator_amended personImpl personStorage2 rfl
  have h5 := h.2.2.2.2 (by decide)
  exact ⟨rfl, h5.2.1, h.2.2.2.1 5 _ h5.2.2⟩

/-- C8: a decode failure during iteration produces "no item" for that
slot — the cursor still advances past it and no error value exists in
the iterator's result type to surface. -/
theorem c8_decode_failure_no_item {R : Type} (q : RoQuery R) (kk v : Bytes) (rest : Table)
    (hv : q.impl.fromBinary v = none) :
    (q.iter = some ((kk, v) :: rest) →
       RoQuery.next q = (none, { q with iter := some rest }, [Event.cursorGet q.db])) ∧
    (q.iter = none → q.txnView = (kk, v) :: rest →
       RoQuery.next q = (none, { q with iter := some rest },
         [Event.cursorOpen q.db, Event.cursorGet q.db])) := by
  constructor
  · intro h
    rcases q with ⟨i, d, vw, it⟩
    simp only at h hv
    subst h
    simp [RoQuery.next, hv]
  · intro h hview
    rcases q with ⟨i, d, vw, it⟩
    simp only at h hview hv
    subst h
    subst hview
    simp [RoQuery.next, hv]

/-- Witness for C8 at a concrete undecodable entry. -/
theorem c8_decode_failure_no_item_witness :
    RoQuery.next ⟨personImpl, 0, personTable1, some [(keyU32IntoBytes 2, [7])]⟩ =
      (none, ⟨personImpl, 0, personTable1, some []⟩, [Event.cursorGet 0]) :=
  (c8_decode_failure_no_item ⟨personImpl, 0, personTable1, some [(keyU32IntoBytes 2, [7])]⟩
    (keyU32IntoBytes 2) [7] [] (by decide)).1 rfl

/-- C6: per `Storage` instance, a cached table handle is returned by
every later resolution with no engine call (the cache is consulted
before any create), a name sees at most one `create_db` over any
drop-free call sequence on a working engine, and only the drop-table
operation removes a cache entry (which it does). -/
theorem c6_table_handle_cache {R : Type} (name : String) (trace : List (TraceOp R))
    (s : Storage)
    (hdrop : ∀ op ∈ trace, op.isDropOf name = false)
    (hf : name ∉ s.env.createFail) :
    (∀ dbi, s.cached name = some dbi →
       Storage.db s name = (Outcome.ok dbi, s, []) ∧
       ((runTrace trace s).1).cached name = some dbi ∧
       countCreates name (runTrace trace s).2 = 0) ∧
    (s.cached name = none → countCreates name (runTrace trace s).2 ≤ 1) ∧
    (∀ impl : RecordImpl R, impl.dbName = name → (Storage.drop impl s).1 = Outcome.ok () →
       ((Storage.drop impl s).2.1).cached name = none) := by
  obtain ⟨h1, h2, _⟩ := runTrace_cache trace s name hdrop hf
  refine ⟨fun dbi hdbi => ⟨db_cached_hit hdbi, (h1 dbi hdbi).1, (h1 dbi hdbi).2⟩, h2, ?_⟩
  intro impl hname hok
  subst hname
  rcases hdb : Storage.db s impl.dbName with ⟨out, s1, evs1⟩
  cases out with
  | ok dbi =>
      rcases ht : s1.env.tableByDbi dbi with _ | t
      · have hspec : (Storage.drop impl s).1 =
            Outcome.err (StorageError.dbError (LmdbError.other 1)) := by
          simp only [Storage.drop, hdb, ht]
        rw [hspec] at hok
        simp at hok
      · have hspec : (Storage.drop impl s).2.1 =
            { env := { s1.env with
                         tables := s1.env.tables.filter (fun d => decide (d.dbi ≠ dbi)) },
              dbs := s1.dbs.filter (fun pr => decide (pr.1 ≠ impl.dbName)) } := by
          simp only [Storage.drop, hdb, ht]
        rw [hspec]
        simp only [Storage.cached]
        rw [cached_filter_self]
        rfl
  | err e =>
      have hspec : (Storage.drop impl s).1 = Outcome.err e := by
        simp only [Storage.drop, hdb]
      rw [hspec] at hok
      simp at hok
  | panic =>
      have hspec : (Storage.drop impl s).1 = Outcome.panic := by
        simp only [Storage.drop, hdb]
      rw [hspec] at hok
      simp at hok

/-- Witness for C6 on a concrete call sequence over a fresh storage. -/
theorem c6_table_handle_cache_witness :
    countCreates "Person" (runTrace c6trace (⟨Env.empty, []⟩ : Storage)).2 ≤ 1 ∧
    ((Storage.drop personImpl (⟨Env.empty, []⟩ : Storage)).2.1).cached "Person" = none := by
  have h := c6_table_handle_cache "Person" c6trace ⟨Env.empty, []⟩ (by decide)
    (by simp [Env.empty])
  exact ⟨h.2.1 rfl, h.2.2 personImpl rfl (by decide)⟩

end Nostalgia
